import Mathlib

/-!
# Verification of the go-algorand transaction pool (data/pools)

Shallow embedding of the `TransactionPool` from `data/pools/transactionPool.go`.
Machine `uint64` arithmetic is modelled as `Nat` with explicit `% 2^64` where
multiplication/subtraction can wrap (the fee computations and the expired-round
key arithmetic); rounds and counters that only ever grow by small increments are
modelled as plain `Nat`.  External collaborators (the ledger and its block
evaluator) are modelled as oracles/parameters, following the interface in the
source.
-/

namespace Pools

/-- 2^64, the modulus of Go `uint64` arithmetic. -/
def U64 : Nat := 2 ^ 64

/-- Wrapping `uint64` subtraction `a - b` (valid Go semantics for `a < U64`). -/
def wsub (a b : Nat) : Nat := (a + (U64 - b % U64)) % U64

/-- A signed transaction, keeping the fields the pool reads:
type, sender, fee (`Fee.Raw`), validity window, encoded length
(`GetEncodedLength`), and its content-addressed id (`ID()`), abstracted
as a number. -/
structure SignedTxn where
  txType : Nat
  sender : Nat
  feeRaw : Nat
  firstValid : Nat
  lastValid : Nat
  encodedLength : Nat
  idNum : Nat
deriving DecidableEq, Repr

/-- The all-zero `transactions.SignedTxn{}` value. -/
def zeroSignedTxn : SignedTxn :=
  { txType := 0, sender := 0, feeRaw := 0, firstValid := 0, lastValid := 0
    encodedLength := 0, idNum := 0 }

/-- `protocol.CompactCertTx`, an opaque transaction-type tag. -/
def compactCertTxType : Nat := 6

/-- `transactions.CompactCertSender`, the designated sender address (opaque). -/
def compactCertSender : Nat := 999

/-- `pooldata.SignedTxGroup`. -/
structure SignedTxGroup where
  transactions : List SignedTxn
  groupCounter : Nat
  encodedLength : Nat
  locallyOriginated : Bool
  groupTransactionID : Nat
deriving DecidableEq, Repr

/-- `pooldata.InvalidSignedTxGroupCounter`.
Modelled from the spec: the constant is declared in `data/pooldata`, which is
not part of the sources here; the spec reserves `0` to mean "none". -/
def InvalidSignedTxGroupCounter : Nat := 0

/-- `txgroup.Transactions.ID()`: a deterministic content hash of the list,
abstracted as a fold over the transaction ids. -/
def txnsID (txs : List SignedTxn) : Nat :=
  txs.foldl (fun a t => a * 1000003 + t.idNum) 7

/-- Go map from `Txid` to `SignedTxn`, as an association list without
duplicate keys (assignment replaces in place). -/
abbrev TxMap := List (Nat × SignedTxn)

/-- Go map assignment `m[k] = v`: replace in place, or append. -/
def mapInsert (m : TxMap) (k : Nat) (v : SignedTxn) : TxMap :=
  match m with
  | [] => [(k, v)]
  | (k', v') :: rest => if k' = k then (k, v) :: rest else (k', v') :: mapInsert rest k v

/-- Go map read `m[k]` (with presence bit). -/
def mapGet (m : TxMap) (k : Nat) : Option SignedTxn :=
  (m.find? (fun p => p.1 = k)).map (·.2)

/-- Go map from `basics.Round` to `int` (the `expiredTxCount` map). -/
abbrev RoundMap := List (Nat × Nat)

/-- Go map assignment for `RoundMap`. -/
def rmapInsert (m : RoundMap) (k v : Nat) : RoundMap :=
  match m with
  | [] => [(k, v)]
  | (k', v') :: rest => if k' = k then (k, v) :: rest else (k', v') :: rmapInsert rest k v

/-- Go `delete(m, k)` for `RoundMap`. -/
def rmapErase (m : RoundMap) (k : Nat) : RoundMap :=
  m.filter (fun p => p.1 ≠ k)

/-- Go map read `m[k]`, defaulting to `0` as Go does for missing keys. -/
def rmapGet (m : RoundMap) (k : Nat) : Nat :=
  ((m.find? (fun p => p.1 = k)).map (·.2)).getD 0

/-- Errors surfaced by the pool, mirroring the error values and types in the
source: `ledger.ErrNoSpace`, `transactions.TxnDeadError`,
`ledgercore.TransactionInLedgerError`, `transactions.MinFeeError`,
`ErrStaleBlockAssemblyRequest`, plus the `fmt.Errorf` failures. -/
inductive PoolErr where
  | noEvaluator
  | capacity
  | feeBelow (fee threshold : Nat)
  | txnDead (round firstValid lastValid : Nat)
  | noSpace
  | txnInLedger
  | minFee
  | evalOther
  | hdrFailed
  | startEvalFailed
  | genFailed
  | stale
deriving DecidableEq, Repr

/-- The state of a `TransactionPool` (the fields the claims are about).
The external block evaluator is represented by `evalPresent` (is
`pendingBlockEvaluator` non-nil), `evalRound` (its `Round()`), together with
the instrumentation counters `evalCalls` (number of `TransactionGroup` calls
made so far, which indexes the evaluator oracle) and `resetTxnBytesCount`
(number of `ResetTxnBytes` calls). -/
structure PoolState where
  feePerByte : Nat
  feeThresholdMultiplier : Nat
  expFeeFactor : Nat
  txPoolMaxSize : Nat
  numPendingWholeBlocks : Nat
  evalPresent : Bool
  evalRound : Nat
  evalCalls : Nat
  resetTxnBytesCount : Nat
  expiredTxCount : RoundMap
  statusCache : List (SignedTxn × String)
  pendingTxGroups : List SignedTxGroup
  pendingTxids : TxMap
  pendingCounter : Nat
  pendingLatestLocal : Nat
  rememberedTxGroups : List SignedTxGroup
  rememberedTxids : TxMap
  rememberedLatestLocal : Nat
  asmRoundStartedEvaluating : Nat
deriving DecidableEq, Repr

/-! ## Fee controller (`computeFeePerByte`, `FeePerByte`, `checkSufficientFee`) -/

/-- The exponential loop of `computeFeePerByte`:
`for i := 0; i < n; i++ { feePerByte *= pool.expFeeFactor }` in `uint64`. -/
def feeLoop (expFeeFactor : Nat) : Nat → Nat → Nat
  | 0, f => f
  | n + 1, f => feeLoop expFeeFactor n (f * expFeeFactor % U64)

/-- `computeFeePerByte` as a pure function of the three fields it reads:
start at 1, multiply by the multiplier, bump 0 to 1 when more than one whole
block is pending, then multiply by `expFeeFactor` once per pending whole block
beyond the first (`uint64` arithmetic throughout). -/
def computeFeePerBytePure (multiplier expFeeFactor npwb : Nat) : Nat :=
  let feePerByte := 1 * multiplier % U64
  let feePerByte := if feePerByte = 0 ∧ 1 < npwb then 1 else feePerByte
  feeLoop expFeeFactor (npwb - 1) feePerByte

/-- `computeFeePerByte` on the pool state: computes the fee and stores it in
the `feePerByte` atomic. -/
def computeFeePerByteSt (s : PoolState) : Nat × PoolState :=
  let v := computeFeePerBytePure s.feeThresholdMultiplier s.expFeeFactor s.numPendingWholeBlocks
  (v, { s with feePerByte := v })

/-- `FeePerByte()`: the lock-free read of the published fee. -/
def FeePerByte (s : PoolState) : Nat := s.feePerByte

/-- The bump step of `computeFeePerByte` applied to the post-multiplier value. -/
def feeBump (f npwb : Nat) : Nat := if f = 0 ∧ 1 < npwb then 1 else f

/-- The mathematical (non-wrapping) value of the fee computation. -/
def feeNoWrap (multiplier expFeeFactor npwb : Nat) : Nat :=
  feeBump (multiplier % U64) npwb * expFeeFactor ^ (npwb - 1)

theorem U64_pos : 0 < U64 := by decide

theorem feeLoop_closed (e : Nat) :
    ∀ (n f : Nat), f < U64 → feeLoop e n f = f * e ^ n % U64 := by
  intro n
  induction n with
  | zero =>
      intro f hf
      simp [feeLoop, Nat.mod_eq_of_lt hf]
  | succ n ih =>
      intro f hf
      rw [feeLoop, ih (f * e % U64) (Nat.mod_lt _ U64_pos)]
      rw [Nat.mod_mul_mod]
      ring_nf

theorem computeFeePerBytePure_eq (m e n : Nat) :
    computeFeePerBytePure m e n = feeNoWrap m e n % U64 := by
  have hf : feeBump (m % U64) n < U64 := by
    unfold feeBump
    split
    · decide
    · exact Nat.mod_lt _ U64_pos
  have hrw : computeFeePerBytePure m e n = feeLoop e (n - 1) (feeBump (m % U64) n) := by
    simp only [computeFeePerBytePure, feeBump, Nat.one_mul]
  rw [hrw, feeLoop_closed e (n - 1) _ hf, feeNoWrap]

theorem feeBump_mono (f : Nat) {n n' : Nat} (h : n ≤ n') : feeBump f n ≤ feeBump f n' := by
  unfold feeBump
  split <;> split <;> omega

theorem feeNoWrap_mono {e : Nat} (m : Nat) (he : 1 ≤ e) {n n' : Nat} (h : n ≤ n') :
    feeNoWrap m e n ≤ feeNoWrap m e n' :=
  Nat.mul_le_mul (feeBump_mono _ h) (Nat.pow_le_pow_right he (Nat.sub_le_sub_right h 1))

/-- A pool state with all fields zeroed/empty. -/
def defaultState : PoolState :=
  { feePerByte := 0, feeThresholdMultiplier := 0, expFeeFactor := 1, txPoolMaxSize := 0
    numPendingWholeBlocks := 0, evalPresent := false, evalRound := 0, evalCalls := 0
    resetTxnBytesCount := 0, expiredTxCount := [], statusCache := [], pendingTxGroups := []
    pendingTxids := [], pendingCounter := 0, pendingLatestLocal := 0
    rememberedTxGroups := [], rememberedTxids := [], rememberedLatestLocal := 0
    asmRoundStartedEvaluating := 0 }

/-- Pool state refuting monotonicity of the fee floor: multiplier 1,
`expFeeFactor = 2^32`, two whole blocks pending. -/
def feeCexLow : PoolState :=
  { defaultState with feeThresholdMultiplier := 1, expFeeFactor := 2 ^ 32, numPendingWholeBlocks := 2 }

/-- Same state with one more pending whole block. -/
def feeCexHigh : PoolState := { feeCexLow with numPendingWholeBlocks := 3 }

/-- C1 counterexample: two pool states agreeing on `fee_threshold_multiplier`
and `exp_fee_factor` (which is ≥ 1), with the backlog growing from 2 to 3
whole blocks, for which the computed fee per byte strictly *decreases*
(from `2^32` to `0`), because the `uint64` multiplication in
`computeFeePerByte` wraps around.  This refutes the claimed monotonicity. -/
theorem feePerByte_monotone_counterexample :
    feeCexLow.feeThresholdMultiplier = feeCexHigh.feeThresholdMultiplier ∧
    feeCexLow.expFeeFactor = feeCexHigh.expFeeFactor ∧
    1 ≤ feeCexLow.expFeeFactor ∧
    feeCexLow.numPendingWholeBlocks ≤ feeCexHigh.numPendingWholeBlocks ∧
    ¬ ((computeFeePerByteSt feeCexLow).1 ≤ (computeFeePerByteSt feeCexHigh).1) := by
  decide

/-- C1 (amended): `computeFeePerByte` is a pure function of
`num_pending_whole_blocks`, `fee_threshold_multiplier` and `exp_fee_factor`
(any two pool states agreeing on these three fields yield the same value);
it follows the stated algorithm, whose closed form is
`bump(multiplier, npwb) * exp_fee_factor^(npwb-1) mod 2^64`; and for every
fixed multiplier and `exp_fee_factor ≥ 1` it is monotone non-decreasing in
`num_pending_whole_blocks` *provided the computation does not overflow
`uint64`* (without that proviso monotonicity fails, see the counterexample). -/
theorem feePerByte_pure_and_monotone :
    (∀ s₁ s₂ : PoolState,
        s₁.numPendingWholeBlocks = s₂.numPendingWholeBlocks →
        s₁.feeThresholdMultiplier = s₂.feeThresholdMultiplier →
        s₁.expFeeFactor = s₂.expFeeFactor →
        (computeFeePerByteSt s₁).1 = (computeFeePerByteSt s₂).1) ∧
    (∀ m e n n' : Nat, 1 ≤ e → n ≤ n' → feeNoWrap m e n' < U64 →
        computeFeePerBytePure m e n ≤ computeFeePerBytePure m e n') ∧
    (∀ m e n : Nat, computeFeePerBytePure m e n = feeNoWrap m e n % U64) := by
  refine ⟨?_, ?_, computeFeePerBytePure_eq⟩
  · intro s₁ s₂ h1 h2 h3
    simp only [computeFeePerByteSt, h1, h2, h3]
  · intro m e n n' he h hlt
    have hmono := feeNoWrap_mono (e := e) m he h
    rw [computeFeePerBytePure_eq, computeFeePerBytePure_eq,
      Nat.mod_eq_of_lt hlt, Nat.mod_eq_of_lt (lt_of_le_of_lt hmono hlt)]
    exact hmono

/-- Witness for the amended C1 at concrete inputs. -/
theorem feePerByte_pure_and_monotone_witness :
    (computeFeePerByteSt feeCexLow).1 = (computeFeePerByteSt feeCexLow).1 ∧
    computeFeePerBytePure 3 2 1 ≤ computeFeePerBytePure 3 2 2 := by
  have h := feePerByte_pure_and_monotone
  exact ⟨h.1 feeCexLow feeCexLow rfl rfl rfl,
    h.2.1 3 2 1 2 (by decide) (by decide) (by decide)⟩

/-- Pool state with multiplier 0, `expFeeFactor` 5 and backlog 3. -/
def feeZeroMultState : PoolState :=
  { defaultState with feeThresholdMultiplier := 0, expFeeFactor := 5, numPendingWholeBlocks := 3 }

/-- C2 counterexample: with multiplier 0, `exp_fee_factor = 5` and
`num_pending_whole_blocks = 3 > 1`, the computed fee floor is `25`, not `1`:
after the bump from 0 to 1, the exponential loop still multiplies by
`exp_fee_factor` once per pending whole block beyond the first. -/
theorem feeFloor_multiplierZero_counterexample :
    feeZeroMultState.feeThresholdMultiplier = 0 ∧
    1 < feeZeroMultState.numPendingWholeBlocks ∧
    (computeFeePerByteSt feeZeroMultState).1 = 25 ∧
    (computeFeePerByteSt feeZeroMultState).1 ≠ 1 := by
  decide

/-- C2 (amended): with `fee_threshold_multiplier = 0` the computed fee floor
is 0 whenever `num_pending_whole_blocks ≤ 1`, and equals
`exp_fee_factor ^ (num_pending_whole_blocks - 1) mod 2^64` whenever
`num_pending_whole_blocks > 1` (the zero product is bumped to 1 and then grows
exponentially; it equals 1 only when the factor is 1). -/
theorem feeFloor_multiplierZero (s : PoolState) (h : s.feeThresholdMultiplier = 0) :
    (s.numPendingWholeBlocks ≤ 1 → (computeFeePerByteSt s).1 = 0) ∧
    (1 < s.numPendingWholeBlocks →
      (computeFeePerByteSt s).1 =
        s.expFeeFactor ^ (s.numPendingWholeBlocks - 1) % U64) := by
  have hv : (computeFeePerByteSt s).1 =
      computeFeePerBytePure 0 s.expFeeFactor s.numPendingWholeBlocks := by
    simp only [computeFeePerByteSt, h]
  constructor
  · intro hn
    rw [hv, computeFeePerBytePure_eq]
    unfold feeNoWrap feeBump
    rw [if_neg (by omega)]
    simp
  · intro hn
    rw [hv, computeFeePerBytePure_eq]
    unfold feeNoWrap feeBump
    rw [if_pos ⟨by decide, hn⟩, Nat.one_mul]

/-- Witness for the amended C2 at a concrete input. -/
theorem feeFloor_multiplierZero_witness :
    feeZeroMultState.feeThresholdMultiplier = 0 ∧
    (computeFeePerByteSt feeZeroMultState).1 =
      feeZeroMultState.expFeeFactor ^ (feeZeroMultState.numPendingWholeBlocks - 1) % U64 := by
  exact ⟨rfl, (feeFloor_multiplierZero feeZeroMultState rfl).2 (by decide)⟩

/-- The special-case test at the top of `checkSufficientFee`: a singleton
group whose sole transaction is a compact-cert transaction from the
designated compact-cert sender, with fee zero. -/
def isExemptGroup (g : SignedTxGroup) : Bool :=
  match g.transactions with
  | [t] => (t.txType == compactCertTxType) && (t.sender == compactCertSender) && (t.feeRaw == 0)
  | _ => false

/-- `checkSufficientFee`: verifies every transaction of the group pays at
least `feePerByte * encodedLength` (the threshold product is computed in
wrapping `uint64`, like the source); the exempt compact-cert singleton is
admitted before the fee is even computed. -/
def checkSufficientFee (s : PoolState) (g : SignedTxGroup) : Option PoolErr × PoolState :=
  if isExemptGroup g then (none, s)
  else
    let p := computeFeePerByteSt s
    match g.transactions.find?
        (fun t => decide (t.feeRaw < p.1 * t.encodedLength % U64)) with
    | some t => (some (.feeBelow t.feeRaw (p.1 * t.encodedLength % U64)), p.2)
    | none => (none, p.2)

/-- A zero-fee payment-style transaction (not a compact cert). -/
def zeroFeeTxn : SignedTxn := { zeroSignedTxn with encodedLength := 100, idNum := 1 }

/-- A non-exempt singleton group containing the zero-fee transaction. -/
def zeroFeeGroup : SignedTxGroup :=
  { transactions := [zeroFeeTxn], groupCounter := 0, encodedLength := 100
    locallyOriginated := false, groupTransactionID := 0 }

/-- C7 counterexample: in an idle pool (`fee_threshold_multiplier = 0`,
backlog ≤ 1) the computed fee per byte is 0, so the per-transaction threshold
`feePerByte * encodedLength` is 0 and a zero-fee group that is *not* the
compact-cert exception still passes the fee check.  This refutes "every other
group containing a zero-fee transaction is rejected by the fee check". -/
theorem checkSufficientFee_zeroFee_counterexample :
    isExemptGroup zeroFeeGroup = false ∧
    zeroFeeTxn ∈ zeroFeeGroup.transactions ∧
    zeroFeeTxn.feeRaw = 0 ∧
    (checkSufficientFee defaultState zeroFeeGroup).1 = none := by
  decide

/-- The designated compact-cert transaction with fee zero. -/
def ccTxn : SignedTxn :=
  { zeroSignedTxn with txType := compactCertTxType, sender := compactCertSender, encodedLength := 50, idNum := 2 }

/-- The exempt singleton compact-cert group. -/
def ccGroup : SignedTxGroup :=
  { transactions := [ccTxn], groupCounter := 0, encodedLength := 50
    locallyOriginated := false, groupTransactionID := 0 }

/-- A pool state whose computed fee per byte is positive (multiplier 1). -/
def busyState : PoolState :=
  { defaultState with feeThresholdMultiplier := 1, expFeeFactor := 2, evalPresent := true, evalRound := 5 }

/-- C7 (amended): a singleton group whose sole transaction is a compact-cert
transaction from the designated compact-cert sender with fee zero passes the
fee check unchanged, regardless of the pool's fee state; and every other group
containing a zero-fee transaction is rejected by the fee check *provided that
transaction's `uint64` threshold `feePerByte * encodedLength mod 2^64` is
nonzero* (the threshold is 0 — and the zero-fee group passes — when the
computed fee per byte is 0, see the counterexample, or when the product wraps
to 0 mod 2^64). -/
theorem checkSufficientFee_exempt_and_reject :
    (∀ (s : PoolState) (t : SignedTxn) (g : SignedTxGroup),
        g.transactions = [t] → t.txType = compactCertTxType →
        t.sender = compactCertSender → t.feeRaw = 0 →
        checkSufficientFee s g = (none, s)) ∧
    (∀ (s : PoolState) (g : SignedTxGroup) (t : SignedTxn),
        t ∈ g.transactions → t.feeRaw = 0 →
        0 < computeFeePerBytePure s.feeThresholdMultiplier s.expFeeFactor
              s.numPendingWholeBlocks * t.encodedLength % U64 →
        isExemptGroup g = false →
        ∃ e, (checkSufficientFee s g).1 = some e) := by
  constructor
  · intro s t g hg ht hs hf
    have hex : isExemptGroup g = true := by
      unfold isExemptGroup
      rw [hg]
      simp [ht, hs, hf]
    unfold checkSufficientFee
    rw [hex]
    simp
  · intro s g t hmem hfee hpos hex
    unfold checkSufficientFee
    rw [hex]
    simp only [Bool.false_eq_true, if_false]
    cases hfind : g.transactions.find?
        (fun t => decide (t.feeRaw < (computeFeePerByteSt s).1 * t.encodedLength % U64)) with
    | none =>
        exfalso
        have := List.find?_eq_none.mp hfind t hmem
        simp only [decide_eq_true_eq] at this
        apply this
        rw [hfee]
        have : (computeFeePerByteSt s).1 =
            computeFeePerBytePure s.feeThresholdMultiplier s.expFeeFactor
              s.numPendingWholeBlocks := rfl
        rw [this]
        exact hpos
    | some t₀ =>
        exact ⟨_, rfl⟩

/-- Witness for the amended C7 at concrete inputs: the compact-cert singleton
passes in a loaded pool, and the plain zero-fee group is rejected there. -/
theorem checkSufficientFee_exempt_and_reject_witness :
    checkSufficientFee busyState ccGroup = (none, busyState) ∧
    ∃ e, (checkSufficientFee busyState zeroFeeGroup).1 = some e := by
  refine ⟨checkSufficientFee_exempt_and_reject.1 busyState ccTxn ccGroup rfl rfl rfl rfl, ?_⟩
  exact checkSufficientFee_exempt_and_reject.2 busyState zeroFeeGroup zeroFeeTxn
    (by decide) (by decide) (by decide) (by decide)

/-! ## Feeding the evaluator (`addToPendingBlockEvaluatorOnce`, `addToPendingBlockEvaluator`, `ingest`) -/

/-- The external block evaluator's `TransactionGroup` behaviour: the result of
the k-th call (counting from pool construction), `none` meaning success. -/
abbrev EvalOracle := Nat → Option PoolErr

/-- `addToPendingBlockEvaluatorOnce`: reject the group as dead if any
transaction's `LastValid` is below `evaluator round + num_pending_whole_blocks`;
otherwise hand the group to the evaluator (the oracle). -/
def addToPendingBlockEvaluatorOnce (oracle : EvalOracle) (g : SignedTxGroup)
    (s : PoolState) : Option PoolErr × PoolState :=
  let r := s.evalRound + s.numPendingWholeBlocks
  match g.transactions.find? (fun tx => decide (tx.lastValid < r)) with
  | some tx => (some (.txnDead r tx.firstValid tx.lastValid), s)
  | none => (oracle s.evalCalls, { s with evalCalls := s.evalCalls + 1 })

/-- `addToPendingBlockEvaluator`: on `ErrNoSpace`, increment
`numPendingWholeBlocks`, call `ResetTxnBytes` and retry exactly once. -/
def addToPendingBlockEvaluator (oracle : EvalOracle) (g : SignedTxGroup)
    (s : PoolState) : Option PoolErr × PoolState :=
  let p := addToPendingBlockEvaluatorOnce oracle g s
  if p.1 = some PoolErr.noSpace then
    let s2 := { p.2 with numPendingWholeBlocks := p.2.numPendingWholeBlocks + 1, resetTxnBytesCount := p.2.resetTxnBytesCount + 1 }
    addToPendingBlockEvaluatorOnce oracle g s2
  else p

/-- The tail of `ingest` shared by both modes: feed the evaluator and, on
success, append the group to the remembered staging layer. -/
def ingestFeed (oracle : EvalOracle) (g : SignedTxGroup) (s : PoolState) :
    Option PoolErr × PoolState :=
  match addToPendingBlockEvaluator oracle g s with
  | (some e, s') => (some e, s')
  | (none, s') =>
    (none, { s' with
      rememberedTxGroups := s'.rememberedTxGroups ++ [g],
      rememberedTxids :=
        g.transactions.foldl (fun m t => mapInsert m t.idNum t) s'.rememberedTxids })

/-- `ingest`: admission of one group.  When not recomputing it performs the
fee check and assigns the group's transaction id first (the freshness wait on
the pool condition variable leaves the sequential state unchanged and is
omitted); then it feeds the evaluator and, on success, appends the group to
the remembered staging layer. -/
def ingest (oracle : EvalOracle) (g : SignedTxGroup) (recomputing : Bool)
    (s : PoolState) : Option PoolErr × PoolState :=
  if s.evalPresent = false then (some .noEvaluator, s)
  else if recomputing then ingestFeed oracle g s
  else
    match checkSufficientFee s g with
    | (some e, s') => (some e, s')
    | (none, s') =>
      ingestFeed oracle { g with groupTransactionID := txnsID g.transactions } s'

theorem addOnce_state (oracle : EvalOracle) (g : SignedTxGroup) (s : PoolState) :
    (addToPendingBlockEvaluatorOnce oracle g s).2 = s ∨
    (addToPendingBlockEvaluatorOnce oracle g s).2 = { s with evalCalls := s.evalCalls + 1 } := by
  simp only [addToPendingBlockEvaluatorOnce]
  cases g.transactions.find?
      (fun tx => decide (tx.lastValid < s.evalRound + s.numPendingWholeBlocks)) with
  | none => exact Or.inr rfl
  | some tx => exact Or.inl rfl

/-- C4: when the first attempt to feed a group to the evaluator returns
`ErrNoSpace`, `addToPendingBlockEvaluator` increments
`num_pending_whole_blocks` by exactly one, calls `ResetTxnBytes` exactly once,
and retries the same group exactly once (the overall result *is* the single
second attempt); `ErrNoSpace` reaches the caller iff the second attempt also
returns it. -/
theorem addToPendingBlockEvaluator_noSpace_retry
    (oracle : EvalOracle) (g : SignedTxGroup) (s s1 s2 : PoolState)
    (h : addToPendingBlockEvaluatorOnce oracle g s = (some PoolErr.noSpace, s1))
    (hs2 : s2 = { s1 with numPendingWholeBlocks := s1.numPendingWholeBlocks + 1, resetTxnBytesCount := s1.resetTxnBytesCount + 1 }) :
    addToPendingBlockEvaluator oracle g s = addToPendingBlockEvaluatorOnce oracle g s2 ∧
    (addToPendingBlockEvaluator oracle g s).2.numPendingWholeBlocks =
      s.numPendingWholeBlocks + 1 ∧
    (addToPendingBlockEvaluator oracle g s).2.resetTxnBytesCount =
      s.resetTxnBytesCount + 1 ∧
    ((addToPendingBlockEvaluator oracle g s).1 = some PoolErr.noSpace ↔
      (addToPendingBlockEvaluatorOnce oracle g s2).1 = some PoolErr.noSpace) := by
  have key : addToPendingBlockEvaluator oracle g s = addToPendingBlockEvaluatorOnce oracle g s2 := by
    unfold addToPendingBlockEvaluator
    rw [h, hs2]
    simp
  have hs1 : s1.numPendingWholeBlocks = s.numPendingWholeBlocks ∧
      s1.resetTxnBytesCount = s.resetTxnBytesCount := by
    rcases addOnce_state oracle g s with h' | h' <;> rw [h] at h' <;> simp at h' <;>
      rw [h'] <;> exact ⟨rfl, rfl⟩
  refine ⟨key, ?_, ?_, by rw [key]⟩
  · rw [key]
    rcases addOnce_state oracle g s2 with h' | h' <;> rw [h'] <;> rw [hs2] <;>
      simpa using hs1.1
  · rw [key]
    rcases addOnce_state oracle g s2 with h' | h' <;> rw [h'] <;> rw [hs2] <;>
      simpa using hs1.2

/-- An evaluator that always reports a full block. -/
def noSpaceOracle : EvalOracle := fun _ => some PoolErr.noSpace

/-- A live (not dead) singleton group. -/
def liveGroup : SignedTxGroup :=
  { transactions := [{ zeroSignedTxn with lastValid := 10, idNum := 3 }]
    groupCounter := 0, encodedLength := 0, locallyOriginated := false
    groupTransactionID := 0 }

/-- The state after the first (failed) evaluator call from `defaultState`. -/
def afterFirstCall : PoolState := { defaultState with evalCalls := 1 }

/-- `afterFirstCall` with the backlog pointer rolled and txn bytes reset. -/
def afterRoll : PoolState :=
  { afterFirstCall with numPendingWholeBlocks := 1, resetTxnBytesCount := 1 }

/-- Witness for C4 at concrete inputs. -/
theorem addToPendingBlockEvaluator_noSpace_retry_witness :
    addToPendingBlockEvaluator noSpaceOracle liveGroup defaultState =
      addToPendingBlockEvaluatorOnce noSpaceOracle liveGroup afterRoll ∧
    (addToPendingBlockEvaluator noSpaceOracle liveGroup defaultState).2.numPendingWholeBlocks =
      defaultState.numPendingWholeBlocks + 1 ∧
    (addToPendingBlockEvaluator noSpaceOracle liveGroup defaultState).2.resetTxnBytesCount =
      defaultState.resetTxnBytesCount + 1 ∧
    ((addToPendingBlockEvaluator noSpaceOracle liveGroup defaultState).1 =
        some PoolErr.noSpace ↔
      (addToPendingBlockEvaluatorOnce noSpaceOracle liveGroup afterRoll).1 =
        some PoolErr.noSpace) :=
  addToPendingBlockEvaluator_noSpace_retry noSpaceOracle liveGroup defaultState
    afterFirstCall afterRoll (by decide) (by decide)

theorem checkSufficientFee_snd (s : PoolState) (g : SignedTxGroup) :
    (checkSufficientFee s g).2 = s ∨
    (checkSufficientFee s g).2 = (computeFeePerByteSt s).2 := by
  simp only [checkSufficientFee]
  split
  · exact Or.inl rfl
  · split
    · exact Or.inr rfl
    · exact Or.inr rfl

theorem add_dead (oracle : EvalOracle) (g : SignedTxGroup) (s : PoolState) (t₀ : SignedTxn)
    (hfind : g.transactions.find?
        (fun tx => decide (tx.lastValid < s.evalRound + s.numPendingWholeBlocks)) = some t₀) :
    addToPendingBlockEvaluator oracle g s =
      (some (.txnDead (s.evalRound + s.numPendingWholeBlocks) t₀.firstValid t₀.lastValid), s) := by
  have honce : addToPendingBlockEvaluatorOnce oracle g s =
      (some (.txnDead (s.evalRound + s.numPendingWholeBlocks) t₀.firstValid t₀.lastValid), s) := by
    simp only [addToPendingBlockEvaluatorOnce, hfind]
  simp only [addToPendingBlockEvaluator, honce]
  rw [if_neg (by simp)]

theorem ingest_dead_core (oracle : EvalOracle) (g : SignedTxGroup) (s s' : PoolState)
    (t₀ : SignedTxn) (hev : s.evalPresent = true)
    (hcf : checkSufficientFee s g = (none, s'))
    (hround : s'.evalRound = s.evalRound)
    (hnpwb : s'.numPendingWholeBlocks = s.numPendingWholeBlocks)
    (hfind : g.transactions.find?
        (fun tx => decide (tx.lastValid < s.evalRound + s.numPendingWholeBlocks)) = some t₀) :
    ingest oracle g false s =
      (some (.txnDead (s.evalRound + s.numPendingWholeBlocks) t₀.firstValid t₀.lastValid),
        s') := by
  have hadd := add_dead oracle { g with groupTransactionID := txnsID g.transactions }
      s' t₀ (by rw [hround, hnpwb]; exact hfind)
  rw [hround, hnpwb] at hadd
  have hcond : (s.evalPresent = false) = False := by simp [hev]
  simp only [ingest, hcond, if_false, Bool.false_eq_true, hcf, ingestFeed, hadd]

/-- A pool state with a live evaluator at round 5 and a positive fee floor
(multiplier 1). -/
def c5state : PoolState :=
  { defaultState with evalPresent := true, evalRound := 5, feeThresholdMultiplier := 1, expFeeFactor := 2 }

/-- An expired (`lastValid = 0`) zero-fee transaction. -/
def c5txn : SignedTxn := { zeroSignedTxn with encodedLength := 100, idNum := 9 }

/-- The group holding the expired zero-fee transaction. -/
def c5group : SignedTxGroup :=
  { transactions := [c5txn], groupCounter := 0, encodedLength := 100
    locallyOriginated := false, groupTransactionID := 0 }

/-- An evaluator that accepts every group. -/
def okOracle : EvalOracle := fun _ => none

/-- C5 counterexample: a group whose only transaction has
`last_valid < evaluator_round + num_pending_whole_blocks` but also an
insufficient fee is rejected by `ingest` with the *fee* error, not the Dead
error, because `checkSufficientFee` runs before the dead check in `ingest`.
This refutes "ingestion fails with the Dead error" as universally stated. -/
theorem ingest_dead_counterexample :
    (∃ t ∈ c5group.transactions,
        t.lastValid < c5state.evalRound + c5state.numPendingWholeBlocks) ∧
    (ingest okOracle c5group false c5state).1 = some (PoolErr.feeBelow 0 100) ∧
    ∀ r fv lv, (ingest okOracle c5group false c5state).1 ≠
      some (PoolErr.txnDead r fv lv) := by
  refine ⟨⟨c5txn, by decide, by decide⟩, by decide, ?_⟩
  intro r fv lv h
  rw [show (ingest okOracle c5group false c5state).1 = some (PoolErr.feeBelow 0 100) from
    by decide] at h
  simp at h

/-- C5 (amended): for every transaction group containing some transaction
with `last_valid < evaluator_round + num_pending_whole_blocks`, *provided an
evaluator is present and the group passes the fee check*, ingestion fails
with the Dead error before the group is handed to the evaluator (the
evaluator call counter is unchanged), and none of the group's transaction
ids are added to `pending_txids` (nor even to the remembered staging layer). -/
theorem ingest_dead_before_evaluator
    (oracle : EvalOracle) (g : SignedTxGroup) (s : PoolState) (t : SignedTxn)
    (hev : s.evalPresent = true)
    (hfee : (checkSufficientFee s g).1 = none)
    (ht : t ∈ g.transactions)
    (hdead : t.lastValid < s.evalRound + s.numPendingWholeBlocks) :
    (∃ fv lv, ingest oracle g false s =
        (some (.txnDead (s.evalRound + s.numPendingWholeBlocks) fv lv),
          (checkSufficientFee s g).2) ∧
        lv < s.evalRound + s.numPendingWholeBlocks) ∧
    (ingest oracle g false s).2.evalCalls = s.evalCalls ∧
    (ingest oracle g false s).2.pendingTxids = s.pendingTxids ∧
    (ingest oracle g false s).2.rememberedTxids = s.rememberedTxids ∧
    (ingest oracle g false s).2.rememberedTxGroups = s.rememberedTxGroups := by
  have hcf : checkSufficientFee s g = (none, (checkSufficientFee s g).2) := by
    rw [← hfee]
  obtain ⟨t₀, hfind⟩ : ∃ t₀, g.transactions.find?
      (fun tx => decide (tx.lastValid < s.evalRound + s.numPendingWholeBlocks)) = some t₀ := by
    cases hf : g.transactions.find?
        (fun tx => decide (tx.lastValid < s.evalRound + s.numPendingWholeBlocks)) with
    | some t₀ => exact ⟨t₀, rfl⟩
    | none =>
        exfalso
        have hnone := List.find?_eq_none.mp hf t ht
        simp only [decide_eq_true_eq] at hnone
        exact hnone hdead
  have hprop : t₀.lastValid < s.evalRound + s.numPendingWholeBlocks := by
    have := List.find?_some hfind
    simpa using this
  have hround : (checkSufficientFee s g).2.evalRound = s.evalRound := by
    rcases checkSufficientFee_snd s g with h | h <;> rw [h] <;> rfl
  have hnpwb : (checkSufficientFee s g).2.numPendingWholeBlocks = s.numPendingWholeBlocks := by
    rcases checkSufficientFee_snd s g with h | h <;> rw [h] <;> rfl
  have hcore := ingest_dead_core oracle g s (checkSufficientFee s g).2 t₀ hev hcf
      hround hnpwb hfind
  refine ⟨⟨t₀.firstValid, t₀.lastValid, hcore, hprop⟩, ?_, ?_, ?_, ?_⟩ <;>
    rw [hcore] <;> rcases checkSufficientFee_snd s g with h | h <;> rw [h] <;> rfl

/-- A dead transaction paying an ample fee. -/
def c5wTxn : SignedTxn :=
  { zeroSignedTxn with feeRaw := 1000, encodedLength := 100, idNum := 11 }

/-- The group holding the well-paying dead transaction. -/
def c5wGroup : SignedTxGroup :=
  { transactions := [c5wTxn], groupCounter := 0, encodedLength := 100
    locallyOriginated := false, groupTransactionID := 0 }

/-- Witness for the amended C5 at concrete inputs. -/
theorem ingest_dead_before_evaluator_witness :
    (∃ fv lv, ingest okOracle c5wGroup false c5state =
        (some (.txnDead (c5state.evalRound + c5state.numPendingWholeBlocks) fv lv),
          (checkSufficientFee c5state c5wGroup).2) ∧
        lv < c5state.evalRound + c5state.numPendingWholeBlocks) ∧
    (ingest okOracle c5wGroup false c5state).2.evalCalls = c5state.evalCalls ∧
    (ingest okOracle c5wGroup false c5state).2.pendingTxids = c5state.pendingTxids ∧
    (ingest okOracle c5wGroup false c5state).2.rememberedTxids = c5state.rememberedTxids ∧
    (ingest okOracle c5wGroup false c5state).2.rememberedTxGroups =
      c5state.rememberedTxGroups :=
  ingest_dead_before_evaluator okOracle c5wGroup c5state c5wTxn (by decide) (by decide)
    (by decide) (by decide)

/-! ## Commit, Remember, RememberArray, Reset, recompute, OnNewBlock, Lookup, AssembleBlock -/

/-- `resetRememberedTransactionGroups`: clear the staging layer. -/
def resetRememberedTransactionGroups (s : PoolState) : PoolState :=
  { s with
    rememberedTxGroups := [], rememberedTxids := [],
    rememberedLatestLocal := InvalidSignedTxGroupCounter }

/-- Sum of the encoded lengths of the transactions (the recomputation of
`EncodedLength` from `MarshalMsg` lengths in `rememberCommit`). -/
def encodedLen (txs : List SignedTxn) : Nat := (txs.map (·.encodedLength)).sum

/-- The counter-assignment loop of `rememberCommit(false)`: each staged group
receives the next `pendingCounter`, its encoded length is recomputed, and
`pendingLatestLocal` follows locally-originated groups. -/
def assignCounters : List SignedTxGroup → Nat → Nat → List SignedTxGroup × Nat × Nat
  | [], c, ll => ([], c, ll)
  | g :: rest, c, ll =>
    let c' := c + 1
    let g' := { g with groupCounter := c', encodedLength := encodedLen g.transactions }
    let ll' := if g.locallyOriginated then c' else ll
    let p := assignCounters rest c' ll'
    (g' :: p.1, p.2)

/-- `rememberCommit`: promote the staging layer into the pending store.
With `flush` the pending store is replaced wholesale; otherwise counters are
assigned and the staged groups are appended. -/
def rememberCommit (flush : Bool) (s : PoolState) : PoolState :=
  if flush then
    resetRememberedTransactionGroups
      { s with
        pendingTxGroups := s.rememberedTxGroups,
        pendingTxids := s.rememberedTxids,
        pendingLatestLocal := s.rememberedLatestLocal }
  else
    let p := assignCounters s.rememberedTxGroups s.pendingCounter s.pendingLatestLocal
    resetRememberedTransactionGroups
      { s with
        pendingCounter := p.2.1, pendingLatestLocal := p.2.2,
        pendingTxGroups := s.pendingTxGroups ++ p.1,
        pendingTxids :=
          s.rememberedTxids.foldl (fun m kv => mapInsert m kv.1 kv.2) s.pendingTxids }

/-- `pendingTxIDsCount`: `len(pool.pendingTxids)`. -/
def pendingTxIDsCount (s : PoolState) : Nat := s.pendingTxids.length

/-- `checkPendingQueueSize`: capacity admission check on the number of
transactions. -/
def checkPendingQueueSize (s : PoolState) (txCount : Nat) : Option PoolErr :=
  if s.txPoolMaxSize < pendingTxIDsCount s + txCount then some .capacity else none

/-- `Remember`: capacity check, ingest, then commit the staging layer. -/
def Remember (oracle : EvalOracle) (g : SignedTxGroup) (s : PoolState) :
    Option PoolErr × PoolState :=
  match checkPendingQueueSize s g.transactions.length with
  | some e => (some e, s)
  | none =>
    match ingest oracle g false s with
    | (some e, s') => (some e, s')
    | (none, s') => (none, rememberCommit false s')

/-- The per-group loop of `RememberArray`: on the first failure the staging
layer is cleared explicitly and the error returned. -/
def rememberArrayLoop (oracle : EvalOracle) :
    List SignedTxGroup → PoolState → Option PoolErr × PoolState
  | [], s => (none, s)
  | g :: rest, s =>
    match ingest oracle g false s with
    | (some e, s') => (some e, resetRememberedTransactionGroups s')
    | (none, s') => rememberArrayLoop oracle rest s'

/-- `RememberArray`: batch admission with all-or-nothing staging. -/
def RememberArray (oracle : EvalOracle) (gs : List SignedTxGroup) (s : PoolState) :
    Option PoolErr × PoolState :=
  match checkPendingQueueSize s ((gs.map (fun g => g.transactions.length)).sum) with
  | some e => (some e, s)
  | none =>
    match rememberArrayLoop oracle gs s with
    | (some e, s') => (some e, s')
    | (none, s') => (none, rememberCommit false s')

/-- Human-readable error text, standing in for the Go error strings recorded
in the status cache. -/
def errText : PoolErr → String
  | .noEvaluator => "no pending block evaluator"
  | .capacity => "transaction pool have reached capacity"
  | .feeBelow f th => "fee " ++ toString f ++ " below threshold " ++ toString th
  | .txnDead r fv lv =>
      "txn dead round " ++ toString r ++ " firstvalid " ++ toString fv ++
        " lastvalid " ++ toString lv
  | .noSpace => "block does not have space"
  | .txnInLedger => "transaction already in ledger"
  | .minFee => "below min fee"
  | .evalOther => "transaction group evaluation failed"
  | .hdrFailed => "cannot get prev header"
  | .startEvalFailed => "cannot start evaluator"
  | .genFailed => "could not generate block"
  | .stale => "requested block assembly specified a round that is older than current transaction pool round"

/-- Modelled from the spec: the status cache implementation
(`statusCache` in the pools package) is not among the sources; per §4.1 it is
a bounded map from transaction id to the stored signed transaction and the
reason string, evicting oldest entries beyond the pool's configured size. -/
def statusCachePut (bound : Nat) (cache : List (SignedTxn × String))
    (t : SignedTxn) (reason : String) : List (SignedTxn × String) :=
  let c := cache ++ [(t, reason)]
  if bound < c.length then c.drop (c.length - bound) else c

/-- Modelled from the spec: `statusCache.check(txid)` returns the stored
signed transaction and reason, or zero values when absent (§4.1). -/
def statusCacheCheck (cache : List (SignedTxn × String)) (txid : Nat) :
    SignedTxn × String × Bool :=
  match cache.find? (fun p => p.1.idNum == txid) with
  | some p => (p.1, p.2, true)
  | none => (zeroSignedTxn, "", false)

/-- `telemetryspec.ProcessBlockMetrics` (the fields the pool state depends
on). -/
structure ProcessBlockMetrics where
  expiredCount : Nat
  removedInvalidCount : Nat
deriving DecidableEq, Repr

/-- Fresh all-zero metrics. -/
def zeroStats : ProcessBlockMetrics := { expiredCount := 0, removedInvalidCount := 0 }

/-- The error classification in the replay loop of
`recomputeBlockEvaluator`: `TransactionInLedgerError` counts as removed,
`TxnDeadError` as expired, everything else as removed. -/
def classifyStats (st : ProcessBlockMetrics) (e : PoolErr) : ProcessBlockMetrics :=
  match e with
  | .txnDead _ _ _ => { st with expiredCount := st.expiredCount + 1 }
  | _ => { st with removedInvalidCount := st.removedInvalidCount + 1 }

/-- The external ledger, as consumed by the pool: its latest round, whether
`BlockHdr` succeeds at a round, whether the next protocol is known
(`ProcessUpgradeParams` + `config.Consensus` lookup), and whether
`StartEvaluator` / `GenerateBlock` succeed. -/
structure LedgerModel where
  latest : Nat
  hdrOkAt : Nat → Bool
  protocolOk : Bool
  startEvalOk : Bool
  generateOk : Bool

/-- One iteration of the replay loop of `recomputeBlockEvaluator`: skip an
empty group, skip a group whose first transaction id is already committed,
otherwise re-ingest in recomputing mode, recording the drop reason in the
status cache and the statistics on failure and tracking
`rememberedLatestLocal` on success. -/
def recomputeStep (oracle : EvalOracle) (committed : List Nat) (g : SignedTxGroup)
    (s : PoolState) (st : ProcessBlockMetrics) : PoolState × ProcessBlockMetrics :=
  match g.transactions with
  | [] => (s, st)
  | t :: _ =>
    if t.idNum ∈ committed then (s, st)
    else
      match ingest oracle g true s with
      | (some e, s') =>
        let cache := g.transactions.foldl
          (fun c tx => statusCachePut s'.txPoolMaxSize c tx (errText e)) s'.statusCache
        ({ s' with statusCache := cache }, classifyStats st e)
      | (none, s') =>
        (if g.locallyOriginated then { s' with rememberedLatestLocal := g.groupCounter }
          else s', st)

/-- The replay loop of `recomputeBlockEvaluator`, feeding the snapshot of the
pending groups in order. -/
def recomputeLoop (oracle : EvalOracle) (committed : List Nat) :
    List SignedTxGroup → PoolState → ProcessBlockMetrics →
      PoolState × ProcessBlockMetrics
  | [], s, st => (s, st)
  | g :: rest, s, st =>
    let p := recomputeStep oracle committed g s st
    recomputeLoop oracle committed rest p.1 p.2

/-- `recomputeBlockEvaluator`: drop the evaluator, bail out (leaving it nil)
if the header, the next protocol, or the new evaluator are unavailable; else
reset the backlog, replay the pending groups and promote the staging layer
wholesale. -/
def recomputeBlockEvaluator (oracle : EvalOracle) (L : LedgerModel)
    (committed : List Nat) (s : PoolState) : PoolState × ProcessBlockMetrics :=
  let s0 := { s with evalPresent := false }
  if L.hdrOkAt L.latest = false then (s0, zeroStats)
  else if L.protocolOk = false then (s0, zeroStats)
  else
    let txgroups := s0.pendingTxGroups
    let s1 := { s0 with
      asmRoundStartedEvaluating := L.latest + 1,
      numPendingWholeBlocks := 0 }
    if L.startEvalOk = false then (s1, zeroStats)
    else
      let s2 := { s1 with evalPresent := true, evalRound := L.latest + 1 }
      let p := recomputeLoop oracle committed txgroups s2 zeroStats
      (rememberCommit true p.1, p.2)

/-- `Reset`: discard all queues and statistics (but *not* `pendingCounter`
nor the fee state) and restart the evaluator. -/
def ResetPool (oracle : EvalOracle) (L : LedgerModel) (s : PoolState) : PoolState :=
  let s' := { s with
    pendingTxids := [], pendingTxGroups := [],
    pendingLatestLocal := InvalidSignedTxGroupCounter,
    rememberedTxids := [], rememberedTxGroups := [],
    expiredTxCount := [], numPendingWholeBlocks := 0,
    evalPresent := false, statusCache := [] }
  (recomputeBlockEvaluator oracle L [] s').1

/-- The configuration options the pool reads. -/
structure Config where
  txPoolSize : Nat
  txPoolExponentialIncreaseFactor : Nat

/-- `MakeTransactionPool`: clamp the exponential factor to ≥ 1, start from
zero values, and run the initial recompute. -/
def makeTransactionPool (oracle : EvalOracle) (L : LedgerModel) (cfg : Config) :
    PoolState :=
  let factor := if cfg.txPoolExponentialIncreaseFactor < 1 then 1
    else cfg.txPoolExponentialIncreaseFactor
  let s := { defaultState with expFeeFactor := factor, txPoolMaxSize := cfg.txPoolSize }
  (recomputeBlockEvaluator oracle L [] s).1

/-- A committed block, as the pool reads it: its round and the consensus
parameter `MaxTxnLife` of its protocol. -/
structure BlockModel where
  round : Nat
  maxTxnLife : Nat
deriving DecidableEq, Repr

/-- The `expiredHistory` constant. -/
def expiredHistory : Nat := 10

/-- The fee-threshold adjustment at the top of `OnNewBlock`: shrink when less
than one whole block was pending, keep at exactly one, grow (from 1 if zero)
at two or more. -/
def adjustFeeMultiplier (s : PoolState) : PoolState :=
  match s.numPendingWholeBlocks with
  | 0 => { s with feeThresholdMultiplier := s.feeThresholdMultiplier / s.expFeeFactor }
  | 1 => s
  | _ + 2 =>
    if s.feeThresholdMultiplier = 0 then { s with feeThresholdMultiplier := 1 }
    else { s with
      feeThresholdMultiplier := s.feeThresholdMultiplier * s.expFeeFactor % U64 }

/-- `OnNewBlock`: when the evaluator is nil or the block has caught up with
it, adjust the fee multiplier and recompute; then (unconditionally) record
the expired count for the block's round and drop the entry that fell out of
the bounded history window. -/
def OnNewBlock (oracle : EvalOracle) (L : LedgerModel) (b : BlockModel)
    (delta : List Nat) (s : PoolState) : PoolState :=
  let p :=
    if s.evalPresent = false ∨ s.evalRound ≤ b.round then
      recomputeBlockEvaluator oracle L delta (adjustFeeMultiplier s)
    else (s, zeroStats)
  let em := rmapInsert p.1.expiredTxCount b.round p.2.expiredCount
  let em' := rmapErase em (wsub b.round (expiredHistory * b.maxTxnLife))
  { p.1 with expiredTxCount := em' }

/-- `NumExpired(round)`. -/
def NumExpired (s : PoolState) (round : Nat) : Nat := rmapGet s.expiredTxCount round

/-- `Lookup`: total even on a nil pool pointer; checks the pending store
first, then the status cache. -/
def Lookup (poolOpt : Option PoolState) (txid : Nat) : SignedTxn × String × Bool :=
  match poolOpt with
  | none => (zeroSignedTxn, "", false)
  | some pool =>
    match mapGet pool.pendingTxids txid with
    | some tx => (tx, "", true)
    | none => statusCacheCheck pool.statusCache txid

/-- A validated block as far as the claims need it: its round and how many
transactions its payset carries. -/
structure AssembledBlock where
  round : Nat
  paysetLen : Nat
deriving DecidableEq, Repr

/-- `assembleEmptyBlock`: load the header of `round − 1` (`uint64`
subtraction), make the next block and generate it with a fresh one-shot
evaluator; no transactions are added. -/
def assembleEmptyBlock (L : LedgerModel) (round : Nat) : Except PoolErr AssembledBlock :=
  let prevRound := wsub round 1
  if L.hdrOkAt prevRound = false then .error .hdrFailed
  else if L.startEvalOk = false then .error .startEvalFailed
  else if L.generateOk = false then .error .genFailed
  else .ok { round := prevRound + 1, paysetLen := 0 }

/-- The deterministic pre-check phase of `AssembleBlock`.  The later
deadline-driven wait on the assembly condition variable is inherently
concurrent/timed and is abstracted as the `waitResult` parameter, reached
only when neither pre-check fires. -/
def AssembleBlock (L : LedgerModel) (s : PoolState) (round : Nat)
    (waitResult : Except PoolErr AssembledBlock) : Except PoolErr AssembledBlock :=
  if s.asmRoundStartedEvaluating ≤ round - 2 then assembleEmptyBlock L round
  else if round < s.asmRoundStartedEvaluating then .error .stale
  else waitResult

/-! ## C10, C3, C6 -/

/-- C10: `Lookup(txid)` on a nil pool pointer returns the zero signed
transaction, the empty error string and `found = false`, for every txid —
`Lookup` is total even when the pool has not been constructed. -/
theorem lookup_nil_pool_total (txid : Nat) :
    Lookup none txid = (zeroSignedTxn, "", false) := rfl

theorem U64_val : U64 = 18446744073709551616 := by norm_num [U64]

theorem wsub_one (round : Nat) (h1 : 1 ≤ round) (h2 : round < U64) :
    wsub round 1 = round - 1 := by
  rw [U64_val] at h2
  unfold wsub
  rw [U64_val]
  omega

/-- C3: `AssembleBlock(round, deadline)` pre-checks: when
`round_started_evaluating ≤ round − 2` (saturating), the call returns the
freshly synthesized empty block for `round` (given the ledger can serve the
previous header and start/generate the one-shot evaluator) rather than an
error; when `round_started_evaluating > round`, it returns the
distinguishable `StaleBlockAssemblyRequest` error and no block. -/
theorem assembleBlock_prechecks
    (L : LedgerModel) (s : PoolState) (round : Nat) (w : Except PoolErr AssembledBlock) :
    (s.asmRoundStartedEvaluating ≤ round - 2 →
      AssembleBlock L s round w = assembleEmptyBlock L round ∧
      (1 ≤ round → round < U64 → L.hdrOkAt (wsub round 1) = true →
        L.startEvalOk = true → L.generateOk = true →
        AssembleBlock L s round w = .ok { round := round, paysetLen := 0 })) ∧
    (round < s.asmRoundStartedEvaluating →
      AssembleBlock L s round w = .error PoolErr.stale) := by
  constructor
  · intro h
    have hmain : AssembleBlock L s round w = assembleEmptyBlock L round := by
      unfold AssembleBlock
      rw [if_pos h]
    refine ⟨hmain, ?_⟩
    intro hr hu hhdr hse hg
    rw [hmain]
    rw [wsub_one round hr hu] at hhdr
    have hone : round - 1 + 1 = round := by omega
    simp [assembleEmptyBlock, wsub_one round hr hu, hhdr, hse, hg, hone]
  · intro h
    unfold AssembleBlock
    rw [if_neg (by omega), if_pos h]

/-- A fully functional ledger stub. -/
def okLedger : LedgerModel :=
  { latest := 0, hdrOkAt := fun _ => true, protocolOk := true,
    startEvalOk := true, generateOk := true }

/-- A pool whose assembly has only reached round 1. -/
def behindPool : PoolState := { defaultState with asmRoundStartedEvaluating := 1 }

/-- A pool whose assembly has already reached round 7. -/
def aheadPool : PoolState := { defaultState with asmRoundStartedEvaluating := 7 }

/-- An arbitrary outcome for the abstracted waiting phase. -/
def anyWait : Except PoolErr AssembledBlock := .error PoolErr.genFailed

/-- Witness for C3 at concrete inputs: round 5 against a pool at round 1
(hopelessly behind — empty block) and against a pool at round 7 (stale). -/
theorem assembleBlock_prechecks_witness :
    AssembleBlock okLedger behindPool 5 anyWait =
      Except.ok { round := 5, paysetLen := 0 } ∧
    AssembleBlock okLedger aheadPool 5 anyWait = Except.error PoolErr.stale := by
  constructor
  · exact ((assembleBlock_prechecks okLedger behindPool 5 anyWait).1 (by decide)).2
      (by decide) (by decide) (by decide) (by decide) (by decide)
  · exact (assembleBlock_prechecks okLedger aheadPool 5 anyWait).2 (by decide)

/-- The committed pending layer of the pool state, as one tuple. -/
def pendingLayer (s : PoolState) : List SignedTxGroup × TxMap × Nat × Nat :=
  (s.pendingTxGroups, s.pendingTxids, s.pendingCounter, s.pendingLatestLocal)

theorem addOnce_pendingLayer (oracle : EvalOracle) (g : SignedTxGroup) (s : PoolState) :
    pendingLayer (addToPendingBlockEvaluatorOnce oracle g s).2 = pendingLayer s := by
  rcases addOnce_state oracle g s with h | h <;> rw [h] <;> rfl

theorem add_pendingLayer (oracle : EvalOracle) (g : SignedTxGroup) (s : PoolState) :
    pendingLayer (addToPendingBlockEvaluator oracle g s).2 = pendingLayer s := by
  simp only [addToPendingBlockEvaluator]
  split
  · exact (addOnce_pendingLayer oracle g _).trans (addOnce_pendingLayer oracle g s)
  · exact addOnce_pendingLayer oracle g s

theorem ingestFeed_pendingLayer (oracle : EvalOracle) (g : SignedTxGroup) (s : PoolState) :
    pendingLayer (ingestFeed oracle g s).2 = pendingLayer s := by
  simp only [ingestFeed]
  rcases h : addToPendingBlockEvaluator oracle g s with ⟨e, s'⟩
  have hp := add_pendingLayer oracle g s
  rw [h] at hp
  cases e <;> exact hp

theorem ingest_pendingLayer (oracle : EvalOracle) (g : SignedTxGroup) (rc : Bool)
    (s : PoolState) : pendingLayer (ingest oracle g rc s).2 = pendingLayer s := by
  simp only [ingest]
  split
  · rfl
  · split
    · exact ingestFeed_pendingLayer oracle g s
    · rcases h : checkSufficientFee s g with ⟨e, s'⟩
      have hcs : pendingLayer s' = pendingLayer s := by
        have hsnd := checkSufficientFee_snd s g
        rw [h] at hsnd
        rcases hsnd with h' | h' <;> simp at h' <;> rw [h'] <;> rfl
      cases e with
      | some e0 => exact hcs
      | none => exact (ingestFeed_pendingLayer oracle _ s').trans hcs

theorem rememberArrayLoop_failure (oracle : EvalOracle) :
    ∀ (gs : List SignedTxGroup) (s : PoolState) (e : PoolErr) (s' : PoolState),
      rememberArrayLoop oracle gs s = (some e, s') →
      s'.rememberedTxGroups = [] ∧ s'.rememberedTxids = [] ∧
      s'.rememberedLatestLocal = InvalidSignedTxGroupCounter ∧
      pendingLayer s' = pendingLayer s
  | [], s, e, s', h => by simp [rememberArrayLoop] at h
  | g :: rest, s, e, s', h => by
    rw [rememberArrayLoop] at h
    rcases hi : ingest oracle g false s with ⟨oe, s0⟩
    rw [hi] at h
    have hpi : pendingLayer s0 = pendingLayer s := by
      have hp := ingest_pendingLayer oracle g false s
      rw [hi] at hp
      exact hp
    cases oe with
    | some e0 =>
      simp only [Prod.mk.injEq] at h
      rw [← h.2]
      exact ⟨rfl, rfl, rfl, hpi⟩
    | none =>
      obtain ⟨a, b, c, d⟩ := rememberArrayLoop_failure oracle rest s0 e s' h
      exact ⟨a, b, c, d.trans hpi⟩

/-- C6: when any group of a `RememberArray(groups)` batch fails admission,
the call returns that error, the staging layer (`remembered_groups`,
`remembered_txids`, `remembered_latest_local`) is cleared, and the committed
pending layer (`pending_groups`, `pending_txids`, `pending_counter`,
`pending_latest_local`) is left exactly as before the call — including the
staging of groups earlier in the batch that had individually succeeded. -/
theorem rememberArray_failure_rollback
    (oracle : EvalOracle) (gs : List SignedTxGroup) (s : PoolState) (e : PoolErr)
    (hstage : s.rememberedTxGroups = [] ∧ s.rememberedTxids = [] ∧
      s.rememberedLatestLocal = InvalidSignedTxGroupCounter)
    (hfail : (RememberArray oracle gs s).1 = some e) :
    (RememberArray oracle gs s).2.rememberedTxGroups = [] ∧
    (RememberArray oracle gs s).2.rememberedTxids = [] ∧
    (RememberArray oracle gs s).2.rememberedLatestLocal = InvalidSignedTxGroupCounter ∧
    (RememberArray oracle gs s).2.pendingTxGroups = s.pendingTxGroups ∧
    (RememberArray oracle gs s).2.pendingTxids = s.pendingTxids ∧
    (RememberArray oracle gs s).2.pendingCounter = s.pendingCounter ∧
    (RememberArray oracle gs s).2.pendingLatestLocal = s.pendingLatestLocal := by
  cases hc : checkPendingQueueSize s ((gs.map (fun g => g.transactions.length)).sum) with
  | some e0 =>
    have hres : RememberArray oracle gs s = (some e0, s) := by
      simp only [RememberArray, hc]
    rw [hres]
    exact ⟨hstage.1, hstage.2.1, hstage.2.2, rfl, rfl, rfl, rfl⟩
  | none =>
    rcases hl : rememberArrayLoop oracle gs s with ⟨oe, s'⟩
    cases oe with
    | none =>
      have hres : RememberArray oracle gs s = (none, rememberCommit false s') := by
        simp only [RememberArray, hc, hl]
      rw [hres] at hfail
      simp at hfail
    | some e1 =>
      have hres : RememberArray oracle gs s = (some e1, s') := by
        simp only [RememberArray, hc, hl]
      rw [hres]
      obtain ⟨a, b, c, d⟩ := rememberArrayLoop_failure oracle gs s e1 s' hl
      simp only [pendingLayer, Prod.mk.injEq] at d
      exact ⟨a, b, c, d.1, d.2.1, d.2.2.1, d.2.2.2⟩

/-- A pool with room for 100 transactions, a live evaluator and fee floor 1. -/
def batchState : PoolState :=
  { defaultState with
    evalPresent := true, evalRound := 5,
    feeThresholdMultiplier := 1, expFeeFactor := 2, txPoolMaxSize := 100 }

/-- A live, amply-paying group that is admitted successfully. -/
def goodGroup : SignedTxGroup :=
  { transactions := [{ zeroSignedTxn with feeRaw := 1000, encodedLength := 100, lastValid := 100, idNum := 21 }],
    groupCounter := 0, encodedLength := 100, locallyOriginated := false,
    groupTransactionID := 0 }

/-- Witness for C6 at concrete inputs: the first group of the batch succeeds,
the second fails the fee check; the whole call errors, the staging is
dropped and the pending layer is untouched. -/
theorem rememberArray_failure_rollback_witness :
    (RememberArray okOracle [goodGroup, zeroFeeGroup] batchState).2.rememberedTxGroups = [] ∧
    (RememberArray okOracle [goodGroup, zeroFeeGroup] batchState).2.rememberedTxids = [] ∧
    (RememberArray okOracle [goodGroup, zeroFeeGroup] batchState).2.rememberedLatestLocal =
      InvalidSignedTxGroupCounter ∧
    (RememberArray okOracle [goodGroup, zeroFeeGroup] batchState).2.pendingTxGroups =
      batchState.pendingTxGroups ∧
    (RememberArray okOracle [goodGroup, zeroFeeGroup] batchState).2.pendingTxids =
      batchState.pendingTxids ∧
    (RememberArray okOracle [goodGroup, zeroFeeGroup] batchState).2.pendingCounter =
      batchState.pendingCounter ∧
    (RememberArray okOracle [goodGroup, zeroFeeGroup] batchState).2.pendingLatestLocal =
      batchState.pendingLatestLocal :=
  rememberArray_failure_rollback okOracle [goodGroup, zeroFeeGroup] batchState
    (PoolErr.feeBelow 0 100) (by decide) (by decide)

/-! ## C8: OnNewBlock applied twice -/

/-- The evaluator-identity part of the state (is it present, and its round). -/
def evalFrame (s : PoolState) : Bool × Nat := (s.evalPresent, s.evalRound)

theorem addOnce_evalFrame (oracle : EvalOracle) (g : SignedTxGroup) (s : PoolState) :
    evalFrame (addToPendingBlockEvaluatorOnce oracle g s).2 = evalFrame s := by
  rcases addOnce_state oracle g s with h | h <;> rw [h] <;> rfl

theorem add_evalFrame (oracle : EvalOracle) (g : SignedTxGroup) (s : PoolState) :
    evalFrame (addToPendingBlockEvaluator oracle g s).2 = evalFrame s := by
  simp only [addToPendingBlockEvaluator]
  split
  · exact (addOnce_evalFrame oracle g _).trans (addOnce_evalFrame oracle g s)
  · exact addOnce_evalFrame oracle g s

theorem ingestFeed_evalFrame (oracle : EvalOracle) (g : SignedTxGroup) (s : PoolState) :
    evalFrame (ingestFeed oracle g s).2 = evalFrame s := by
  simp only [ingestFeed]
  rcases h : addToPendingBlockEvaluator oracle g s with ⟨e, s'⟩
  have hp := add_evalFrame oracle g s
  rw [h] at hp
  cases e <;> exact hp

theorem ingest_evalFrame (oracle : EvalOracle) (g : SignedTxGroup) (rc : Bool)
    (s : PoolState) : evalFrame (ingest oracle g rc s).2 = evalFrame s := by
  simp only [ingest]
  split
  · rfl
  · split
    · exact ingestFeed_evalFrame oracle g s
    · rcases h : checkSufficientFee s g with ⟨e, s'⟩
      have hcs : evalFrame s' = evalFrame s := by
        have hsnd := checkSufficientFee_snd s g
        rw [h] at hsnd
        rcases hsnd with h' | h' <;> simp at h' <;> rw [h'] <;> rfl
      cases e with
      | some e0 => exact hcs
      | none => exact (ingestFeed_evalFrame oracle _ s').trans hcs

theorem recomputeStep_evalFrame (oracle : EvalOracle) (committed : List Nat)
    (g : SignedTxGroup) (s : PoolState) (st : ProcessBlockMetrics) :
    evalFrame (recomputeStep oracle committed g s st).1 = evalFrame s := by
  unfold recomputeStep
  rcases g.transactions with _ | ⟨t, ts⟩
  · rfl
  · dsimp only
    split
    · rfl
    · rcases hi : ingest oracle g true s with ⟨oe, s0⟩
      have hf : evalFrame s0 = evalFrame s := by
        have h := ingest_evalFrame oracle g true s
        rw [hi] at h
        exact h
      cases oe with
      | some e0 => exact hf
      | none =>
        dsimp only
        split <;> exact hf

theorem recomputeLoop_evalFrame (oracle : EvalOracle) (committed : List Nat) :
    ∀ (gs : List SignedTxGroup) (s : PoolState) (st : ProcessBlockMetrics),
      evalFrame (recomputeLoop oracle committed gs s st).1 = evalFrame s
  | [], s, st => rfl
  | g :: rest, s, st =>
    (recomputeLoop_evalFrame oracle committed rest _ _).trans
      (recomputeStep_evalFrame oracle committed g s st)

theorem rememberCommit_evalFrame (f : Bool) (s : PoolState) :
    evalFrame (rememberCommit f s) = evalFrame s := by
  unfold rememberCommit resetRememberedTransactionGroups
  split <;> rfl

/-- After a recompute against a healthy ledger, the evaluator is present and
targets `latest + 1`. -/
theorem recompute_healthy (oracle : EvalOracle) (L : LedgerModel) (committed : List Nat)
    (s : PoolState) (hhdr : L.hdrOkAt L.latest = true) (hproto : L.protocolOk = true)
    (hstart : L.startEvalOk = true) :
    (recomputeBlockEvaluator oracle L committed s).1.evalPresent = true ∧
    (recomputeBlockEvaluator oracle L committed s).1.evalRound = L.latest + 1 := by
  simp only [recomputeBlockEvaluator, hhdr, hproto, hstart, Bool.true_eq_false, if_false]
  constructor
  · exact congrArg Prod.fst ((rememberCommit_evalFrame true _).trans
      (recomputeLoop_evalFrame oracle committed _ _ _))
  · exact congrArg Prod.snd ((rememberCommit_evalFrame true _).trans
      (recomputeLoop_evalFrame oracle committed _ _ _))

theorem rmapErase_cons (k' v' : Nat) (rest : RoundMap) (k : Nat) :
    rmapErase ((k', v') :: rest) k =
      if k' = k then rmapErase rest k else (k', v') :: rmapErase rest k := by
  by_cases h : k' = k <;> simp [rmapErase, List.filter_cons, h]

theorem rmapInsert_cons (k' v' : Nat) (rest : RoundMap) (k v : Nat) :
    rmapInsert ((k', v') :: rest) k v =
      if k' = k then (k, v) :: rest else (k', v') :: rmapInsert rest k v := rfl

theorem rmapGet_cons (k' v' : Nat) (rest : RoundMap) (k : Nat) :
    rmapGet ((k', v') :: rest) k = if k' = k then v' else rmapGet rest k := by
  by_cases h : k' = k <;> simp [rmapGet, List.find?_cons, h]

/-- Key presence in a `RoundMap`. -/
def rmapHas (m : RoundMap) (r : Nat) : Bool := m.any (fun p => p.1 == r)

theorem rmapHas_cons (k' v' : Nat) (rest : RoundMap) (k : Nat) :
    rmapHas ((k', v') :: rest) k = ((k' == k) || rmapHas rest k) := by
  simp [rmapHas]

theorem rmapErase_idem (m : RoundMap) (k : Nat) :
    rmapErase (rmapErase m k) k = rmapErase m k := by
  induction m with
  | nil => rfl
  | cons p rest ih =>
    rcases p with ⟨k', v'⟩
    by_cases h : k' = k
    · rw [rmapErase_cons, if_pos h, ih]
    · rw [rmapErase_cons, if_neg h, rmapErase_cons, if_neg h, ih]

theorem rmapErase_insert_same (m : RoundMap) (k v : Nat) :
    rmapErase (rmapInsert m k v) k = rmapErase m k := by
  induction m with
  | nil =>
    show rmapErase [(k, v)] k = []
    rw [rmapErase_cons, if_pos rfl]
    rfl
  | cons p rest ih =>
    rcases p with ⟨k', v'⟩
    rw [rmapInsert_cons]
    by_cases h : k' = k
    · rw [if_pos h, rmapErase_cons, if_pos rfl, rmapErase_cons, if_pos h]
    · rw [if_neg h, rmapErase_cons, if_neg h, rmapErase_cons, if_neg h, ih]

theorem rmapErase_comm_insert (m : RoundMap) (k r v : Nat) (h : k ≠ r) :
    rmapErase (rmapInsert m r v) k = rmapInsert (rmapErase m k) r v := by
  have hrk : ¬ r = k := fun hh => h hh.symm
  induction m with
  | nil =>
    show rmapErase [(r, v)] k = [(r, v)]
    rw [rmapErase_cons, if_neg hrk]
    rfl
  | cons p rest ih =>
    rcases p with ⟨k', v'⟩
    by_cases hk : k' = r
    · subst hk
      rw [rmapInsert_cons, if_pos rfl, rmapErase_cons, if_neg hrk,
        rmapErase_cons, if_neg hrk, rmapInsert_cons, if_pos rfl]
    · by_cases hk2 : k' = k
      · subst hk2
        rw [rmapInsert_cons, if_neg hk, rmapErase_cons, if_pos rfl, rmapErase_cons,
          if_pos rfl, ih]
      · rw [rmapInsert_cons, if_neg hk, rmapErase_cons, if_neg hk2, rmapErase_cons,
          if_neg hk2, rmapInsert_cons, if_neg hk, ih]

theorem rmapGet_insert (m : RoundMap) (r v : Nat) :
    rmapGet (rmapInsert m r v) r = v := by
  induction m with
  | nil =>
    show rmapGet [(r, v)] r = v
    rw [rmapGet_cons, if_pos rfl]
  | cons p rest ih =>
    rcases p with ⟨k', v'⟩
    rw [rmapInsert_cons]
    by_cases h : k' = r
    · rw [if_pos h, rmapGet_cons, if_pos rfl]
    · rw [if_neg h, rmapGet_cons, if_neg h, ih]

theorem rmapGet_erase_ne (m : RoundMap) (k r : Nat) (h : k ≠ r) :
    rmapGet (rmapErase m k) r = rmapGet m r := by
  induction m with
  | nil => rfl
  | cons p rest ih =>
    rcases p with ⟨k', v'⟩
    rw [rmapErase_cons, rmapGet_cons]
    by_cases hk : k' = k
    · rw [if_pos hk, ih, if_neg (by omega)]
    · rw [if_neg hk, rmapGet_cons]
      by_cases hr : k' = r
      · rw [if_pos hr, if_pos hr]
      · rw [if_neg hr, if_neg hr, ih]

theorem rmapHas_insert (m : RoundMap) (r v : Nat) :
    rmapHas (rmapInsert m r v) r = true := by
  induction m with
  | nil =>
    show rmapHas [(r, v)] r = true
    rw [rmapHas_cons]
    simp
  | cons p rest ih =>
    rcases p with ⟨k', v'⟩
    rw [rmapInsert_cons]
    by_cases h : k' = r
    · rw [if_pos h, rmapHas_cons]
      simp
    · rw [if_neg h, rmapHas_cons, ih]
      simp

theorem rmapHas_erase_ne (m : RoundMap) (k r : Nat) (h : k ≠ r) :
    rmapHas (rmapErase m k) r = rmapHas m r := by
  induction m with
  | nil => rfl
  | cons p rest ih =>
    rcases p with ⟨k', v'⟩
    rw [rmapErase_cons, rmapHas_cons]
    by_cases hk : k' = k
    · rw [if_pos hk, ih]
      have : (k' == r) = false := by
        subst hk
        simp
        omega
      rw [this]
      simp
    · rw [if_neg hk, rmapHas_cons, ih]

theorem rmapInsert_self (m : RoundMap) (r v : Nat)
    (hhas : rmapHas m r = true) (hget : rmapGet m r = v) :
    rmapInsert m r v = m := by
  induction m with
  | nil => simp [rmapHas] at hhas
  | cons p rest ih =>
    rcases p with ⟨k', v'⟩
    rw [rmapGet_cons] at hget
    rw [rmapInsert_cons]
    by_cases h : k' = r
    · rw [if_pos h]
      rw [if_pos h] at hget
      subst h
      rw [← hget]
    · rw [if_neg h]
      rw [if_neg h] at hget
      rw [rmapHas_cons] at hhas
      simp only [Bool.or_eq_true, beq_iff_eq] at hhas
      rcases hhas with h' | h'
      · exact absurd h' h
      · rw [ih (by simpa [rmapHas] using h') hget]

/-- The second expired-count update (inserting 0 and re-erasing the history
key) is a no-op on a map of the form produced by the first update, whenever
the recorded count reads as 0. -/
theorem rmap_second_update (X : RoundMap) (E k r : Nat)
    (hget : rmapGet (rmapErase (rmapInsert X r E) k) r = 0) :
    rmapErase (rmapInsert (rmapErase (rmapInsert X r E) k) r 0) k =
      rmapErase (rmapInsert X r E) k := by
  by_cases hkr : k = r
  · subst hkr
    rw [rmapErase_insert_same, rmapErase_idem, rmapErase_insert_same]
  · have hE0 : E = 0 := by
      rw [rmapGet_erase_ne _ _ _ hkr, rmapGet_insert] at hget
      exact hget
    subst hE0
    have hhas : rmapHas (rmapErase (rmapInsert X r 0) k) r = true := by
      rw [rmapHas_erase_ne _ _ _ hkr]
      exact rmapHas_insert X r 0
    have hg : rmapGet (rmapErase (rmapInsert X r 0) k) r = 0 := by
      rw [rmapGet_erase_ne _ _ _ hkr]
      exact rmapGet_insert X r 0
    rw [rmapInsert_self _ _ _ hhas hg, rmapErase_idem]

/-- A ledger at round 5 that serves every request. -/
def c8Ledger : LedgerModel :=
  { latest := 5, hdrOkAt := fun _ => true, protocolOk := true,
    startEvalOk := true, generateOk := true }

/-- A block for round 5 under a protocol with `MaxTxnLife = 1000`. -/
def c8Block : BlockModel := { round := 5, maxTxnLife := 1000 }

/-- A pending group whose only transaction expired (`lastValid = 0`). -/
def c8DeadGroup : SignedTxGroup :=
  { transactions := [{ zeroSignedTxn with idNum := 31 }], groupCounter := 1,
    encodedLength := 0, locallyOriginated := false, groupTransactionID := 0 }

/-- A pool at round 5 holding the expired group. -/
def c8State : PoolState :=
  { defaultState with
    evalPresent := true, evalRound := 5, expFeeFactor := 2,
    pendingTxGroups := [c8DeadGroup],
    pendingTxids := [(31, { zeroSignedTxn with idNum := 31 })] }

/-- C8 counterexample: the first `OnNewBlock(b)` recomputes, drops the
expired pending group, and records `expired_tx_count[5] = 1`; the second
identical call skips the recompute (the evaluator has advanced past `b`) but
still unconditionally overwrites `expired_tx_count[5]` with the zero
`ExpiredCount` of the skipped recompute.  The state after two calls differs
from the state after one, refuting idempotence as claimed. -/
theorem onNewBlock_not_idempotent_counterexample :
    NumExpired (OnNewBlock okOracle c8Ledger c8Block [] c8State) 5 = 1 ∧
    NumExpired (OnNewBlock okOracle c8Ledger c8Block []
      (OnNewBlock okOracle c8Ledger c8Block [] c8State)) 5 = 0 ∧
    OnNewBlock okOracle c8Ledger c8Block []
        (OnNewBlock okOracle c8Ledger c8Block [] c8State) ≠
      OnNewBlock okOracle c8Ledger c8Block [] c8State := by
  decide

/-- C8 (amended): against a ledger that has committed `b` (so
`b.round ≤ latest`) and can serve the recompute, and when the first call
actually recomputes, the second identical `OnNewBlock(b, delta)` finds the
evaluator advanced past `b` and skips the fee adjustment and the recompute;
it leaves the entire pool state unchanged *except* that it overwrites
`expired_tx_count[b.round]` with 0 (and re-deletes the expired-history key);
in particular the double call is fully idempotent precisely when the first
call recorded 0 expired transactions for `b.round`. -/
theorem onNewBlock_second_call (oracle : EvalOracle) (L : LedgerModel) (b : BlockModel)
    (delta : List Nat) (s : PoolState)
    (hb : b.round ≤ L.latest)
    (hhdr : L.hdrOkAt L.latest = true) (hproto : L.protocolOk = true)
    (hstart : L.startEvalOk = true)
    (hguard : s.evalPresent = false ∨ s.evalRound ≤ b.round) :
    ((OnNewBlock oracle L b delta s).evalPresent = true ∧
      b.round < (OnNewBlock oracle L b delta s).evalRound) ∧
    OnNewBlock oracle L b delta (OnNewBlock oracle L b delta s) =
      { OnNewBlock oracle L b delta s with
        expiredTxCount := rmapErase
          (rmapInsert (OnNewBlock oracle L b delta s).expiredTxCount b.round 0)
          (wsub b.round (expiredHistory * b.maxTxnLife)) } ∧
    (NumExpired (OnNewBlock oracle L b delta s) b.round = 0 →
      OnNewBlock oracle L b delta (OnNewBlock oracle L b delta s) =
        OnNewBlock oracle L b delta s) := by
  have hres1 : OnNewBlock oracle L b delta s =
      { (recomputeBlockEvaluator oracle L delta (adjustFeeMultiplier s)).1 with
        expiredTxCount := rmapErase
          (rmapInsert
            (recomputeBlockEvaluator oracle L delta (adjustFeeMultiplier s)).1.expiredTxCount
            b.round
            (recomputeBlockEvaluator oracle L delta (adjustFeeMultiplier s)).2.expiredCount)
          (wsub b.round (expiredHistory * b.maxTxnLife)) } := by
    simp only [OnNewBlock]
    rw [if_pos hguard]
  have hh := recompute_healthy oracle L delta (adjustFeeMultiplier s) hhdr hproto hstart
  have hA1 : (OnNewBlock oracle L b delta s).evalPresent = true := by
    rw [hres1]
    exact hh.1
  have hA2 : b.round < (OnNewBlock oracle L b delta s).evalRound := by
    rw [hres1]
    show b.round < (recomputeBlockEvaluator oracle L delta (adjustFeeMultiplier s)).1.evalRound
    rw [hh.2]
    omega
  have hng : ¬ ((OnNewBlock oracle L b delta s).evalPresent = false ∨
      (OnNewBlock oracle L b delta s).evalRound ≤ b.round) := by
    rw [hA1]
    push_neg
    exact ⟨by simp, hA2⟩
  have hres2 : OnNewBlock oracle L b delta (OnNewBlock oracle L b delta s) =
      { OnNewBlock oracle L b delta s with
        expiredTxCount := rmapErase
          (rmapInsert (OnNewBlock oracle L b delta s).expiredTxCount b.round 0)
          (wsub b.round (expiredHistory * b.maxTxnLife)) } := by
    conv_lhs => rw [OnNewBlock]
    rw [if_neg hng]
    rfl
  refine ⟨⟨hA1, hA2⟩, hres2, ?_⟩
  intro hN
  rw [hres2]
  have hshape : (OnNewBlock oracle L b delta s).expiredTxCount =
      rmapErase
        (rmapInsert
          (recomputeBlockEvaluator oracle L delta (adjustFeeMultiplier s)).1.expiredTxCount
          b.round
          (recomputeBlockEvaluator oracle L delta (adjustFeeMultiplier s)).2.expiredCount)
        (wsub b.round (expiredHistory * b.maxTxnLife)) := by
    rw [hres1]
  have hget : rmapGet (OnNewBlock oracle L b delta s).expiredTxCount b.round = 0 := hN
  rw [hshape] at hget ⊢
  rw [rmap_second_update _ _ _ _ hget]
  rw [← hshape]

/-- Witness for the amended C8 at concrete inputs (the `c8` scenario). -/
theorem onNewBlock_second_call_witness :
    ((OnNewBlock okOracle c8Ledger c8Block [] c8State).evalPresent = true ∧
      c8Block.round < (OnNewBlock okOracle c8Ledger c8Block [] c8State).evalRound) ∧
    OnNewBlock okOracle c8Ledger c8Block [] (OnNewBlock okOracle c8Ledger c8Block [] c8State) =
      { OnNewBlock okOracle c8Ledger c8Block [] c8State with
        expiredTxCount := rmapErase
          (rmapInsert (OnNewBlock okOracle c8Ledger c8Block [] c8State).expiredTxCount
            c8Block.round 0)
          (wsub c8Block.round (expiredHistory * c8Block.maxTxnLife)) } ∧
    (NumExpired (OnNewBlock okOracle c8Ledger c8Block [] c8State) c8Block.round = 0 →
      OnNewBlock okOracle c8Ledger c8Block []
          (OnNewBlock okOracle c8Ledger c8Block [] c8State) =
        OnNewBlock okOracle c8Ledger c8Block [] c8State) :=
  onNewBlock_second_call okOracle c8Ledger c8Block [] c8State (by decide) (by decide)
    (by decide) (by decide) (Or.inr (by decide))

/-! ## C9: group counters -/

theorem recomputeStep_pendingLayer (oracle : EvalOracle) (committed : List Nat)
    (g : SignedTxGroup) (s : PoolState) (st : ProcessBlockMetrics) :
    pendingLayer (recomputeStep oracle committed g s st).1 = pendingLayer s := by
  unfold recomputeStep
  rcases g.transactions with _ | ⟨t, ts⟩
  · rfl
  · dsimp only
    split
    · rfl
    · rcases hi : ingest oracle g true s with ⟨oe, s0⟩
      have hf : pendingLayer s0 = pendingLayer s := by
        have h := ingest_pendingLayer oracle g true s
        rw [hi] at h
        exact h
      cases oe with
      | some e0 => exact hf
      | none =>
        dsimp only
        split <;> exact hf

theorem recomputeLoop_pendingLayer (oracle : EvalOracle) (committed : List Nat) :
    ∀ (gs : List SignedTxGroup) (s : PoolState) (st : ProcessBlockMetrics),
      pendingLayer (recomputeLoop oracle committed gs s st).1 = pendingLayer s
  | [], s, st => rfl
  | g :: rest, s, st =>
    (recomputeLoop_pendingLayer oracle committed rest _ _).trans
      (recomputeStep_pendingLayer oracle committed g s st)

theorem addOnce_remembered (oracle : EvalOracle) (g : SignedTxGroup) (s : PoolState) :
    (addToPendingBlockEvaluatorOnce oracle g s).2.rememberedTxGroups =
      s.rememberedTxGroups := by
  rcases addOnce_state oracle g s with h | h <;> rw [h]

theorem add_remembered (oracle : EvalOracle) (g : SignedTxGroup) (s : PoolState) :
    (addToPendingBlockEvaluator oracle g s).2.rememberedTxGroups =
      s.rememberedTxGroups := by
  simp only [addToPendingBlockEvaluator]
  split
  · exact (addOnce_remembered oracle g _).trans (addOnce_remembered oracle g s)
  · exact addOnce_remembered oracle g s

theorem ingestFeed_remembered_none (oracle : EvalOracle) (g : SignedTxGroup)
    (s : PoolState) (h : (ingestFeed oracle g s).1 = none) :
    (ingestFeed oracle g s).2.rememberedTxGroups = s.rememberedTxGroups ++ [g] := by
  revert h
  simp only [ingestFeed]
  rcases ha : addToPendingBlockEvaluator oracle g s with ⟨oe, s0⟩
  have hrem : s0.rememberedTxGroups = s.rememberedTxGroups := by
    have h1 := add_remembered oracle g s
    rw [ha] at h1
    exact h1
  cases oe with
  | some e0 =>
    intro h
    simp at h
  | none =>
    intro _
    show s0.rememberedTxGroups ++ [g] = s.rememberedTxGroups ++ [g]
    rw [hrem]

theorem ingestFeed_remembered_some (oracle : EvalOracle) (g : SignedTxGroup)
    (s : PoolState) (e : PoolErr) (h : (ingestFeed oracle g s).1 = some e) :
    (ingestFeed oracle g s).2.rememberedTxGroups = s.rememberedTxGroups := by
  revert h
  simp only [ingestFeed]
  rcases ha : addToPendingBlockEvaluator oracle g s with ⟨oe, s0⟩
  have hrem : s0.rememberedTxGroups = s.rememberedTxGroups := by
    have h1 := add_remembered oracle g s
    rw [ha] at h1
    exact h1
  cases oe with
  | some e0 => intro _; exact hrem
  | none =>
    intro h
    simp at h

theorem checkSufficientFee_remembered (s : PoolState) (g : SignedTxGroup) :
    (checkSufficientFee s g).2.rememberedTxGroups = s.rememberedTxGroups := by
  rcases checkSufficientFee_snd s g with h | h <;> rw [h] <;> rfl

theorem ingest_err_remembered (oracle : EvalOracle) (g : SignedTxGroup) (rc : Bool)
    (s : PoolState) (e : PoolErr) (h : (ingest oracle g rc s).1 = some e) :
    (ingest oracle g rc s).2.rememberedTxGroups = s.rememberedTxGroups := by
  revert h
  simp only [ingest]
  split
  · intro _; rfl
  · split
    · exact fun h => ingestFeed_remembered_some oracle g s e h
    · rcases hc : checkSufficientFee s g with ⟨oe, s0⟩
      have hrem : s0.rememberedTxGroups = s.rememberedTxGroups := by
        have h1 := checkSufficientFee_remembered s g
        rw [hc] at h1
        exact h1
      cases oe with
      | some e0 => intro _; exact hrem
      | none =>
        intro h
        exact (ingestFeed_remembered_some oracle _ s0 e h).trans hrem

theorem ingest_true_remembered (oracle : EvalOracle) (g : SignedTxGroup) (s : PoolState) :
    (ingest oracle g true s).2.rememberedTxGroups = s.rememberedTxGroups ∨
    (ingest oracle g true s).2.rememberedTxGroups = s.rememberedTxGroups ++ [g] := by
  by_cases hev : s.evalPresent = false
  · left
    simp only [ingest, if_pos hev]
  · have hmain : ingest oracle g true s = ingestFeed oracle g s := by
      simp only [ingest, if_neg hev]
      exact if_pos trivial
    rw [hmain]
    cases hfe : (ingestFeed oracle g s).1 with
    | none => exact Or.inr (ingestFeed_remembered_none oracle g s hfe)
    | some e0 => exact Or.inl (ingestFeed_remembered_some oracle g s e0 hfe)

theorem recomputeStep_remembered (oracle : EvalOracle) (committed : List Nat)
    (g : SignedTxGroup) (s : PoolState) (st : ProcessBlockMetrics) :
    (recomputeStep oracle committed g s st).1.rememberedTxGroups =
        s.rememberedTxGroups ∨
    (recomputeStep oracle committed g s st).1.rememberedTxGroups =
        s.rememberedTxGroups ++ [g] := by
  unfold recomputeStep
  rcases g.transactions with _ | ⟨t, ts⟩
  · exact Or.inl rfl
  · dsimp only
    split
    · exact Or.inl rfl
    · rcases hi : ingest oracle g true s with ⟨oe, s0⟩
      have hrem := ingest_true_remembered oracle g s
      rw [hi] at hrem
      cases oe with
      | some e0 => exact hrem
      | none =>
        dsimp only
        split
        · exact hrem
        · exact hrem

theorem recomputeLoop_remembered (oracle : EvalOracle) (committed : List Nat) :
    ∀ (gs : List SignedTxGroup) (s : PoolState) (st : ProcessBlockMetrics),
      ∃ q, (recomputeLoop oracle committed gs s st).1.rememberedTxGroups =
          s.rememberedTxGroups ++ q ∧ q.Sublist gs
  | [], s, st => ⟨[], by simp [recomputeLoop], List.nil_sublist []⟩
  | g :: rest, s, st => by
    obtain ⟨q, hq, hsub⟩ := recomputeLoop_remembered oracle committed rest
      (recomputeStep oracle committed g s st).1 (recomputeStep oracle committed g s st).2
    rcases recomputeStep_remembered oracle committed g s st with h | h
    · refine ⟨q, ?_, hsub.trans (List.sublist_cons_self g rest)⟩
      rw [recomputeLoop]
      rw [hq, h]
    · refine ⟨g :: q, ?_, List.Sublist.cons₂ g hsub⟩
      rw [recomputeLoop]
      rw [hq, h]
      simp

theorem assignCounters_counter :
    ∀ (gs : List SignedTxGroup) (c ll : Nat),
      (assignCounters gs c ll).2.1 = c + gs.length
  | [], c, ll => rfl
  | g :: rest, c, ll => by
    rw [assignCounters]
    dsimp only
    rw [assignCounters_counter rest (c + 1) (if g.locallyOriginated then c + 1 else ll)]
    rw [List.length_cons]
    omega

theorem assignCounters_bounds :
    ∀ (gs : List SignedTxGroup) (c ll : Nat),
      ∀ g' ∈ (assignCounters gs c ll).1,
        c < g'.groupCounter ∧ g'.groupCounter ≤ c + gs.length
  | [], c, ll => by
    intro g' hg'
    simp [assignCounters] at hg'
  | g :: rest, c, ll => by
    intro g' hg'
    rw [assignCounters] at hg'
    dsimp only at hg'
    have hlen : (g :: rest).length = rest.length + 1 := rfl
    rcases List.mem_cons.mp hg' with h | h
    · subst h
      constructor
      · show c < c + 1
        omega
      · show c + 1 ≤ c + (g :: rest).length
        omega
    · have hb := assignCounters_bounds rest (c + 1)
        (if g.locallyOriginated then c + 1 else ll) g' h
      exact ⟨by omega, by omega⟩

theorem assignCounters_chain :
    ∀ (gs : List SignedTxGroup) (c ll : Nat),
      List.Chain' (· < ·) ((assignCounters gs c ll).1.map (fun g => g.groupCounter))
  | [], _, _ => List.chain'_nil
  | g :: rest, c, ll => by
    rw [assignCounters]
    dsimp only
    rw [List.map_cons]
    refine List.chain'_cons'.mpr
      ⟨?_, assignCounters_chain rest (c + 1) (if g.locallyOriginated then c + 1 else ll)⟩
    intro y hy
    have hy' : y ∈ (assignCounters rest (c + 1)
        (if g.locallyOriginated then c + 1 else ll)).1.map (fun g => g.groupCounter) :=
      List.mem_of_mem_head? hy
    obtain ⟨gy, hgy, hgye⟩ := List.mem_map.mp hy'
    have h2 := (assignCounters_bounds rest (c + 1)
      (if g.locallyOriginated then c + 1 else ll) gy hgy).1
    show c + 1 < y
    omega

theorem rememberCommit_false_spec (s : PoolState) :
    (rememberCommit false s).pendingTxGroups =
      s.pendingTxGroups ++
        (assignCounters s.rememberedTxGroups s.pendingCounter s.pendingLatestLocal).1 ∧
    (rememberCommit false s).pendingCounter =
      s.pendingCounter + s.rememberedTxGroups.length ∧
    (rememberCommit false s).rememberedTxGroups = [] := by
  refine ⟨rfl, ?_, rfl⟩
  show (assignCounters s.rememberedTxGroups s.pendingCounter s.pendingLatestLocal).2.1 = _
  exact assignCounters_counter _ _ _

/-- The group-counter part of the pool invariant: strictly increasing
counters bounded by `pendingCounter`, and (between operations) an empty
staging layer. -/
def poolInv (s : PoolState) : Prop :=
  List.Chain' (· < ·) (s.pendingTxGroups.map (fun g => g.groupCounter)) ∧
  (∀ g ∈ s.pendingTxGroups, 0 < g.groupCounter ∧ g.groupCounter ≤ s.pendingCounter) ∧
  s.rememberedTxGroups = []

theorem pendingLayer_proj {a b : PoolState} (h : pendingLayer a = pendingLayer b) :
    a.pendingTxGroups = b.pendingTxGroups ∧ a.pendingTxids = b.pendingTxids ∧
    a.pendingCounter = b.pendingCounter ∧ a.pendingLatestLocal = b.pendingLatestLocal := by
  simp only [pendingLayer, Prod.mk.injEq] at h
  exact ⟨h.1, h.2.1, h.2.2.1, h.2.2.2⟩

theorem rememberCommit_false_inv (s : PoolState)
    (hchain : List.Chain' (· < ·) (s.pendingTxGroups.map (fun g => g.groupCounter)))
    (hbound : ∀ g ∈ s.pendingTxGroups,
      0 < g.groupCounter ∧ g.groupCounter ≤ s.pendingCounter) :
    poolInv (rememberCommit false s) ∧
    (∀ g' ∈ (rememberCommit false s).pendingTxGroups,
      g' ∈ s.pendingTxGroups ∨ s.pendingCounter < g'.groupCounter) := by
  obtain ⟨hp, hc, hr⟩ := rememberCommit_false_spec s
  refine ⟨⟨?_, ?_, hr⟩, ?_⟩
  · rw [hp, List.map_append]
    refine List.Chain'.append hchain (assignCounters_chain _ _ _) ?_
    intro x hx y hy
    have hx' : x ∈ s.pendingTxGroups.map (fun g => g.groupCounter) := by
      obtain ⟨hne, heq⟩ := List.mem_getLast?_eq_getLast hx
      rw [heq]
      exact List.getLast_mem hne
    have hy' := List.mem_of_mem_head? hy
    obtain ⟨gx, hgx, hgxe⟩ := List.mem_map.mp hx'
    obtain ⟨gy, hgy, hgye⟩ := List.mem_map.mp hy'
    have h1 := (hbound gx hgx).2
    have h2 := (assignCounters_bounds _ _ _ gy hgy).1
    omega
  · intro g hg
    rw [hp] at hg
    rw [hc]
    rcases List.mem_append.mp hg with h | h
    · have hb := hbound g h
      exact ⟨hb.1, by omega⟩
    · have hb := assignCounters_bounds _ _ _ g h
      exact ⟨by omega, by omega⟩
  · intro g' hg'
    rw [hp] at hg'
    rcases List.mem_append.mp hg' with h | h
    · exact Or.inl h
    · exact Or.inr (assignCounters_bounds _ _ _ g' h).1

theorem recompute_pendingCounter (oracle : EvalOracle) (L : LedgerModel)
    (committed : List Nat) (s : PoolState) :
    (recomputeBlockEvaluator oracle L committed s).1.pendingCounter = s.pendingCounter := by
  simp only [recomputeBlockEvaluator]
  split
  · rfl
  · split
    · rfl
    · split
      · rfl
      · exact congrArg (fun t => t.2.2.1)
          (recomputeLoop_pendingLayer oracle committed s.pendingTxGroups _ zeroStats)

theorem recompute_tail_inv (oracle : EvalOracle) (committed : List Nat)
    (gs : List SignedTxGroup) (s2 : PoolState)
    (hstage2 : s2.rememberedTxGroups = [])
    (hchain : List.Chain' (· < ·) (gs.map (fun g => g.groupCounter)))
    (hbound : ∀ g ∈ gs, 0 < g.groupCounter ∧ g.groupCounter ≤ s2.pendingCounter) :
    poolInv (rememberCommit true (recomputeLoop oracle committed gs s2 zeroStats).1) := by
  obtain ⟨q, hq, hsub⟩ := recomputeLoop_remembered oracle committed gs s2 zeroStats
  rw [hstage2, List.nil_append] at hq
  have hcnt := (pendingLayer_proj
    (recomputeLoop_pendingLayer oracle committed gs s2 zeroStats)).2.2.1
  refine ⟨?_, ?_, rfl⟩
  · show List.Chain' (· < ·)
      ((recomputeLoop oracle committed gs s2 zeroStats).1.rememberedTxGroups.map
        (fun g => g.groupCounter))
    rw [hq]
    exact hchain.sublist (hsub.map (fun g => g.groupCounter))
  · intro g hg
    have hg' : g ∈ q := hq ▸ hg
    have hb := hbound g (hsub.subset hg')
    show 0 < g.groupCounter ∧ g.groupCounter ≤
      (recomputeLoop oracle committed gs s2 zeroStats).1.pendingCounter
    rw [hcnt]
    exact hb

theorem recompute_inv (oracle : EvalOracle) (L : LedgerModel) (committed : List Nat)
    (s : PoolState) (h : poolInv s) :
    poolInv (recomputeBlockEvaluator oracle L committed s).1 := by
  obtain ⟨hchain, hbound, hstage⟩ := h
  simp only [recomputeBlockEvaluator]
  split
  · exact ⟨hchain, hbound, hstage⟩
  · split
    · exact ⟨hchain, hbound, hstage⟩
    · split
      · exact ⟨hchain, hbound, hstage⟩
      · exact recompute_tail_inv oracle committed s.pendingTxGroups _ hstage hchain hbound

theorem adjustFeeMultiplier_fields (s : PoolState) :
    (adjustFeeMultiplier s).pendingTxGroups = s.pendingTxGroups ∧
    (adjustFeeMultiplier s).pendingCounter = s.pendingCounter ∧
    (adjustFeeMultiplier s).rememberedTxGroups = s.rememberedTxGroups := by
  unfold adjustFeeMultiplier
  cases s.numPendingWholeBlocks with
  | zero => exact ⟨rfl, rfl, rfl⟩
  | succ n =>
    cases n with
    | zero => exact ⟨rfl, rfl, rfl⟩
    | succ m =>
      by_cases hm : s.feeThresholdMultiplier = 0
      · rw [if_pos hm]
        exact ⟨rfl, rfl, rfl⟩
      · rw [if_neg hm]
        exact ⟨rfl, rfl, rfl⟩

theorem poolInv_onNewBlock (oracle : EvalOracle) (L : LedgerModel) (b : BlockModel)
    (delta : List Nat) (s : PoolState) (h : poolInv s) :
    poolInv (OnNewBlock oracle L b delta s) := by
  simp only [OnNewBlock]
  split
  · have h2 : poolInv (adjustFeeMultiplier s) := by
      obtain ⟨hf1, hf2, hf3⟩ := adjustFeeMultiplier_fields s
      exact ⟨by rw [hf1]; exact h.1,
        by rw [hf1]; intro g hg; rw [hf2]; exact h.2.1 g hg,
        by rw [hf3]; exact h.2.2⟩
    exact recompute_inv oracle L delta _ h2
  · exact h

theorem poolInv_remember (oracle : EvalOracle) (g : SignedTxGroup) (s : PoolState)
    (h : poolInv s) : poolInv (Remember oracle g s).2 := by
  cases hc : checkPendingQueueSize s g.transactions.length with
  | some e =>
    have hres : Remember oracle g s = (some e, s) := by simp only [Remember, hc]
    rw [hres]
    exact h
  | none =>
    rcases hi : ingest oracle g false s with ⟨oe, s0⟩
    have hPL := ingest_pendingLayer oracle g false s
    rw [hi] at hPL
    obtain ⟨hpg, _, hpc, _⟩ := pendingLayer_proj hPL
    cases oe with
    | some e =>
      have hres : Remember oracle g s = (some e, s0) := by simp only [Remember, hc, hi]
      rw [hres]
      have hrem := ingest_err_remembered oracle g false s e (by rw [hi])
      rw [hi] at hrem
      exact ⟨by rw [hpg]; exact h.1,
        by intro g' hg'; rw [hpc]; exact h.2.1 g' (hpg ▸ hg'),
        by rw [hrem]; exact h.2.2⟩
    | none =>
      have hres : Remember oracle g s = (none, rememberCommit false s0) := by
        simp only [Remember, hc, hi]
      rw [hres]
      exact (rememberCommit_false_inv s0 (by rw [hpg]; exact h.1)
        (by intro g' hg'; rw [hpc]; exact h.2.1 g' (hpg ▸ hg'))).1

theorem rememberArrayLoop_pendingLayer (oracle : EvalOracle) :
    ∀ (gs : List SignedTxGroup) (s : PoolState),
      pendingLayer (rememberArrayLoop oracle gs s).2 = pendingLayer s
  | [], s => rfl
  | g :: rest, s => by
    rw [rememberArrayLoop]
    rcases hi : ingest oracle g false s with ⟨oe, s0⟩
    have hPL := ingest_pendingLayer oracle g false s
    rw [hi] at hPL
    cases oe with
    | some e => exact hPL
    | none => exact (rememberArrayLoop_pendingLayer oracle rest s0).trans hPL

theorem poolInv_rememberArray (oracle : EvalOracle) (gs : List SignedTxGroup)
    (s : PoolState) (h : poolInv s) : poolInv (RememberArray oracle gs s).2 := by
  cases hc : checkPendingQueueSize s ((gs.map (fun g => g.transactions.length)).sum) with
  | some e =>
    have hres : RememberArray oracle gs s = (some e, s) := by
      simp only [RememberArray, hc]
    rw [hres]
    exact h
  | none =>
    rcases hl : rememberArrayLoop oracle gs s with ⟨oe, s0⟩
    cases oe with
    | some e =>
      have hres : RememberArray oracle gs s = (some e, s0) := by
        simp only [RememberArray, hc, hl]
      rw [hres]
      obtain ⟨ha, _, _, hd⟩ := rememberArrayLoop_failure oracle gs s e s0 hl
      obtain ⟨hpg, _, hpc, _⟩ := pendingLayer_proj hd
      exact ⟨by rw [hpg]; exact h.1,
        by intro g' hg'; rw [hpc]; exact h.2.1 g' (hpg ▸ hg'),
        ha⟩
    | none =>
      have hres : RememberArray oracle gs s = (none, rememberCommit false s0) := by
        simp only [RememberArray, hc, hl]
      rw [hres]
      have hPL := rememberArrayLoop_pendingLayer oracle gs s
      rw [hl] at hPL
      obtain ⟨hpg, _, hpc, _⟩ := pendingLayer_proj hPL
      exact (rememberCommit_false_inv s0 (by rw [hpg]; exact h.1)
        (by intro g' hg'; rw [hpc]; exact h.2.1 g' (hpg ▸ hg'))).1

theorem poolInv_reset (oracle : EvalOracle) (L : LedgerModel) (s : PoolState) :
    poolInv (ResetPool oracle L s) := by
  unfold ResetPool
  exact recompute_inv oracle L [] _
    ⟨List.chain'_nil, by intro g hg; exact absurd hg (List.not_mem_nil g), rfl⟩

/-- The pool states reachable (in this sequential model) from construction
through the state-mutating operations. -/
inductive Reachable : PoolState → Prop where
  | init (oracle : EvalOracle) (L : LedgerModel) (cfg : Config) :
      Reachable (makeTransactionPool oracle L cfg)
  | remember (oracle : EvalOracle) (g : SignedTxGroup) (s : PoolState) :
      Reachable s → Reachable (Remember oracle g s).2
  | rememberArray (oracle : EvalOracle) (gs : List SignedTxGroup) (s : PoolState) :
      Reachable s → Reachable (RememberArray oracle gs s).2
  | onNewBlock (oracle : EvalOracle) (L : LedgerModel) (b : BlockModel)
      (delta : List Nat) (s : PoolState) :
      Reachable s → Reachable (OnNewBlock oracle L b delta s)
  | reset (oracle : EvalOracle) (L : LedgerModel) (s : PoolState) :
      Reachable s → Reachable (ResetPool oracle L s)
  | assembleDevMode (oracle : EvalOracle) (L : LedgerModel) (s : PoolState) :
      Reachable s → Reachable (recomputeBlockEvaluator oracle L [] s).1

theorem reachable_poolInv (s : PoolState) (h : Reachable s) : poolInv s := by
  induction h with
  | init oracle L cfg =>
    unfold makeTransactionPool
    exact recompute_inv oracle L [] _
      ⟨List.chain'_nil, by intro g hg; exact absurd hg (List.not_mem_nil g), rfl⟩
  | remember oracle g s _ ih => exact poolInv_remember oracle g s ih
  | rememberArray oracle gs s _ ih => exact poolInv_rememberArray oracle gs s ih
  | onNewBlock oracle L b delta s _ ih => exact poolInv_onNewBlock oracle L b delta s ih
  | reset oracle L s _ _ => exact poolInv_reset oracle L s
  | assembleDevMode oracle L s _ ih => exact recompute_inv oracle L [] s ih

/-- C9: in every reachable pool state the `group_counter` values of
`pending_groups` are strictly increasing in insertion order, positive
(0 is reserved for "none") and bounded by `pending_counter`; counters are
never reused (any group added by a `Remember` is either an existing group or
carries a counter strictly above the current `pending_counter`); and `Reset`
does not re-initialize `pending_counter`, so counters assigned after a Reset
continue strictly above all counters assigned before it. -/
theorem groupCounter_monotone_never_reused (s : PoolState) (h : Reachable s) :
    List.Chain' (· < ·) (s.pendingTxGroups.map (fun g => g.groupCounter)) ∧
    (∀ g ∈ s.pendingTxGroups, 0 < g.groupCounter ∧ g.groupCounter ≤ s.pendingCounter) ∧
    (∀ (oracle : EvalOracle) (L : LedgerModel),
      (ResetPool oracle L s).pendingCounter = s.pendingCounter) ∧
    (∀ (oracle : EvalOracle) (g : SignedTxGroup),
      ∀ g' ∈ (Remember oracle g s).2.pendingTxGroups,
        g' ∈ s.pendingTxGroups ∨ s.pendingCounter < g'.groupCounter) := by
  obtain ⟨hchain, hbound, hstage⟩ := reachable_poolInv s h
  refine ⟨hchain, hbound, ?_, ?_⟩
  · intro oracle L
    unfold ResetPool
    exact recompute_pendingCounter oracle L [] _
  · intro oracle g g' hg'
    cases hc : checkPendingQueueSize s g.transactions.length with
    | some e =>
      have hres : Remember oracle g s = (some e, s) := by simp only [Remember, hc]
      rw [hres] at hg'
      exact Or.inl hg'
    | none =>
      rcases hi : ingest oracle g false s with ⟨oe, s0⟩
      have hPL := ingest_pendingLayer oracle g false s
      rw [hi] at hPL
      obtain ⟨hpg, _, hpc, _⟩ := pendingLayer_proj hPL
      cases oe with
      | some e =>
        have hres : Remember oracle g s = (some e, s0) := by simp only [Remember, hc, hi]
        rw [hres] at hg'
        exact Or.inl (hpg ▸ hg')
      | none =>
        have hres : Remember oracle g s = (none, rememberCommit false s0) := by
          simp only [Remember, hc, hi]
        rw [hres] at hg'
        have hsec := (rememberCommit_false_inv s0 (by rw [hpg]; exact hchain)
          (by intro a ha; rw [hpc]; exact hbound a (hpg ▸ ha))).2 g' hg'
        rcases hsec with hmem | hcnt
        · exact Or.inl (hpg ▸ hmem)
        · right
          rw [hpc] at hcnt
          exact hcnt

/-- The configuration used by the C9 witness. -/
def c9cfg : Config := { txPoolSize := 10, txPoolExponentialIncreaseFactor := 2 }

/-- Witness for C9 at a concrete reachable state (the freshly constructed
pool). -/
theorem groupCounter_monotone_never_reused_witness :
    List.Chain' (· < ·) ((makeTransactionPool okOracle okLedger c9cfg).pendingTxGroups.map
      (fun g => g.groupCounter)) ∧
    (∀ g ∈ (makeTransactionPool okOracle okLedger c9cfg).pendingTxGroups,
      0 < g.groupCounter ∧
        g.groupCounter ≤ (makeTransactionPool okOracle okLedger c9cfg).pendingCounter) ∧
    (∀ (oracle : EvalOracle) (L : LedgerModel),
      (ResetPool oracle L (makeTransactionPool okOracle okLedger c9cfg)).pendingCounter =
        (makeTransactionPool okOracle okLedger c9cfg).pendingCounter) ∧
    (∀ (oracle : EvalOracle) (g : SignedTxGroup),
      ∀ g' ∈ (Remember oracle g (makeTransactionPool okOracle okLedger c9cfg)).2.pendingTxGroups,
        g' ∈ (makeTransactionPool okOracle okLedger c9cfg).pendingTxGroups ∨
          (makeTransactionPool okOracle okLedger c9cfg).pendingCounter < g'.groupCounter) :=
  groupCounter_monotone_never_reused (makeTransactionPool okOracle okLedger c9cfg)
    (Reachable.init okOracle okLedger c9cfg)

end Pools
